import Mathlib

/-!
Shallow embedding of the `train_freight_system` Rust repository.

Conventions of the embedding:
* `NodeId`, `TrainId`, `PackageId`, `EdgeId` (newtypes over `String` in the
  source) are plain `String`s.
* `Minute` and `Kilogram` (newtypes over `u32`) are `Nat`.  The only
  subtractions the source performs are on values where the minuend is at
  least the subtrahend on every reachable state, so truncated `Nat`
  subtraction agrees with the `u32` arithmetic there.
* Rust functions that can panic (`unwrap`, out-of-bounds indexing) are
  embedded as `Option`-valued functions; `none` means the source panics.
* The unbounded `while`/`loop` constructs of `deliver_packages` and
  `deliver_packages_in_nodes` are embedded with an explicit fuel parameter;
  running out of fuel also yields `none`, and `some` results are shown to be
  stable under additional fuel, so a `some` result is the value the source
  returns and an (all fuel) `none` result means the source diverges or panics.

Four `TrainHandler` methods are called by `train_freight_system.rs` but their
definitions are not part of the sources (`get_train`,
`list_stopped_trains_at_node`, `can_accomodate_package`,
`can_pacakge_be_transported_by_any_trains`); they are modelled from the
specification, as marked on their doc comments.
-/

namespace TrainFreight

/-- Error kinds of `error.rs`. -/
inductive ErrorKind where
  | AddStationError
  | AddEdgeError
  | AddTrainError
  | AddPackageError
  deriving DecidableEq, Repr

/-- `edge.rs`: an adjacency-list entry `{id, node, travel_time}`. -/
structure Edge where
  id : String
  node : String
  travel_time : Nat
  deriving DecidableEq, Repr

/-- `node.rs`: a station with its adjacency list. -/
structure Node where
  id : String
  edges : List Edge
  deriving DecidableEq, Repr

instance : Inhabited Node := ⟨⟨"", []⟩⟩

/-- `train.rs` `Status`. -/
inductive TrainStatus where
  | NotAvailable
  | StoppedAt (node : String)
  | DeliveringTo (origin : String) (destination : String) (travel_time : Nat)
  deriving DecidableEq, Repr

/-- `train.rs` `Train`. -/
structure Train where
  id : String
  max_capacity : Nat
  status : TrainStatus
  load_size : Nat
  deriving DecidableEq, Repr

/-- `Train::default()`: empty id, zero capacity, `NotAvailable`, zero load. -/
instance : Inhabited Train := ⟨⟨"", 0, .NotAvailable, 0⟩⟩

/-- `package.rs` `Status`. -/
inductive PackageStatus where
  | Completed
  | DroppedAt (node : String) (train : String)
  | LoadedTo (train : String)
  | Delivered (train : String)
  | CantBeTransported (node : String)
  deriving DecidableEq, Repr

/-- `package.rs` `Package`. -/
structure Package where
  id : String
  weight : Nat
  destination : String
  status : PackageStatus
  deriving DecidableEq, Repr

/-- `TrainFreightSystem` with the two handlers flattened to their lists. -/
structure TFS where
  nodes : List Node
  trains : List Train
  packages : List Package
  deriving DecidableEq, Repr

instance : Inhabited TFS := ⟨⟨[], [], []⟩⟩

/-- `DeliveryResult` of `train_freight_system.rs`. -/
inductive DeliveryResult where
  | NoPackages
  | NoTrains
  | NotAllPackageLoaded
  | AllPackageLoaded
  | TrainPicking
  deriving DecidableEq, Repr

/-! ## Node operations -/

/-- `Node::find_edge_with_node`. -/
def Node.find_edge_with_node (n : Node) (node_id : String) : Option Edge :=
  n.edges.find? (fun e => e.node == node_id)

/-- `Node::add_edge`: duplicate-id check, then push. -/
def Node.add_edge (n : Node) (e : Edge) : Option ErrorKind × Node :=
  if (n.edges.find? (fun e2 => e2.id == e.id)).isSome then
    (some .AddEdgeError, n)
  else
    (none, { n with edges := n.edges ++ [e] })

/-- `TrainFreightSystem::find_node_index_by_id` / `by_name`. -/
def findNodeIdx (sys : TFS) (node_id : String) : Option Nat :=
  sys.nodes.findIdx? (fun n => n.id == node_id)

/-! ## Train operations -/

/-- `Train::get_location`. -/
def Train.get_location (t : Train) : Option String :=
  match t.status with
  | .StoppedAt node => some node
  | _ => none

/-- `Train::load_package`: load only if the package fits in the remaining
capacity, otherwise leave both train and package unchanged. -/
def Train.load_package (t : Train) (p : Package) : Train × Package :=
  let available := t.max_capacity - t.load_size
  if p.weight ≤ available then
    ({ t with load_size := t.load_size + p.weight },
     { p with status := .LoadedTo t.id })
  else
    (t, p)

/-- `Train::move_to`. -/
def Train.move_to (t : Train) (origin destination : String) (travel_time : Nat) : Train :=
  { t with status := .DeliveringTo origin destination travel_time }

/-- `Train::stopped`. -/
def Train.stopped (t : Train) (node : String) : Train :=
  { t with status := .StoppedAt node }

/-- `Train::unload_package`: mark delivered or dropped, subtract the weight. -/
def Train.unload_package (t : Train) (p : Package) (node : String) :
    Train × Package :=
  let p' :=
    if p.destination == node then { p with status := .Delivered t.id }
    else { p with status := .DroppedAt node t.id }
  ({ t with load_size := t.load_size - p.weight }, p')

/-- Modelled from the spec: §4.4's permissive fit check used by the dispatch
heuristics ("some package waiting there would fit in the selected train's
remaining capacity"); `Train::can_accomodate_package` is called by
`train_freight_system.rs` but its definition is missing from the sources. -/
def Train.can_accomodate_package (t : Train) (p : Package) : Bool :=
  p.weight ≤ t.max_capacity - t.load_size

/-- `TrainHandler::find_train_index_by_id` / `by_name`. -/
def findTrainIdx (trains : List Train) (train_id : String) : Option Nat :=
  trains.findIdx? (fun t => t.id == train_id)

/-- Modelled from the spec: the registry accessor fetching a train by id
(registration order first match); `TrainHandler::get_train` is called by
`train_freight_system.rs` but its definition is missing from the sources. -/
def get_train (trains : List Train) (train_id : String) : Option Train :=
  trains.find? (fun t => t.id == train_id)

/-- `TrainHandler::list_trains_stopped_at_node`. -/
def list_trains_stopped_at_node (trains : List Train) (node_id : String) :
    List Train :=
  trains.filter (fun t => t.status == .StoppedAt node_id)

/-- Modelled from the spec: §4.4 `listStoppedAt(station)` returning the ids of
the trains `StoppedAt` the station in registration order;
`TrainHandler::list_stopped_trains_at_node` is called by
`train_freight_system.rs` but its definition is missing from the sources. -/
def list_stopped_trains_at_node (trains : List Train) (node_id : String) :
    List String :=
  (list_trains_stopped_at_node trains node_id).map (·.id)

/-- Modelled from the spec: §4.5 freezes "any package whose weight exceeds
every current train's capacity" and thaws when "a large-enough train now
exists", so the check is: some registered train's `max_capacity` admits the
package's weight; `TrainHandler::can_pacakge_be_transported_by_any_trains` is
called by `train_freight_system.rs` but its definition is missing from the
sources. -/
def can_pacakge_be_transported_by_any_trains (trains : List Train)
    (p : Package) : Bool :=
  trains.any (fun t => p.weight ≤ t.max_capacity)

/-- The scan loop of `TrainHandler::find_largest_capacity_train_in_node`.
`index` is the position in the *filtered* stopped list, but the comparison
fetches `self.trains[best]`, i.e. indexes the *full* registration list. -/
def find_largest_loop (allTrains : List Train) : List Train → Nat →
    Option Nat → Option Nat
  | [], _, best => best
  | _ :: ts, index, none => find_largest_loop allTrains ts (index + 1) (some index)
  | t :: ts, index, some b =>
      let biggest_train := allTrains.getD b default
      if biggest_train.max_capacity < t.max_capacity then
        find_largest_loop allTrains ts (index + 1) (some index)
      else
        find_largest_loop allTrains ts (index + 1) (some b)

/-- `TrainHandler::find_largest_capacity_train_in_node`: scans the stopped
trains at the node but resolves the scan index against the full train list. -/
def find_largest_capacity_train_in_node (trains : List Train)
    (node_id : String) : Option String :=
  let stopped := list_trains_stopped_at_node trains node_id
  (find_largest_loop trains stopped 0 none).map
    (fun index => (trains.getD index default).id)

/-- `TrainHandler::get_moving_train_lowest_travel_time`. -/
def get_moving_train_lowest_travel_time (trains : List Train) : Option Nat :=
  (trains.filterMap (fun t =>
    match t.status with
    | .DeliveringTo _ _ travel_time => some travel_time
    | _ => none)).min?

/-- `TrainHandler::time_elapsed`. -/
def time_elapsed (trains : List Train) (duration : Nat) : List Train :=
  trains.map (fun t =>
    match t.status with
    | .DeliveringTo origin destination travel_time =>
        let remaining_time := travel_time - duration
        if remaining_time = 0 then t.stopped destination
        else t.move_to origin destination remaining_time
    | _ => t)

/-- `TrainHandler::list_stopped_trains`. -/
def list_stopped_trains (trains : List Train) : List String :=
  (trains.filter (fun t =>
    match t.status with
    | .StoppedAt _ => true
    | _ => false)).map (·.id)

/-- `TrainHandler::load_package`: resolve the train by id (unwrap), load. -/
def handler_load_package (trains : List Train) (train_id : String)
    (p : Package) : Option (List Train × Package) :=
  match findTrainIdx trains train_id with
  | none => none
  | some pos =>
      match trains.get? pos with
      | none => none
      | some tr =>
          let (tr', p') := tr.load_package p
          some (trains.set pos tr', p')

/-- `TrainHandler::move_to_node`: resolve the train by id (unwrap), move. -/
def move_to_node (trains : List Train) (train_id origin destination : String)
    (travel_time : Nat) : Option (List Train) :=
  match findTrainIdx trains train_id with
  | none => none
  | some pos =>
      match trains.get? pos with
      | none => none
      | some tr => some (trains.set pos (tr.move_to origin destination travel_time))

/-! ## Package operations -/

/-- `Package::new`: same origin and destination means born `Delivered` with the
default (empty) train id, otherwise `DroppedAt(origin)`. -/
def Package.make (name : String) (weight : Nat) (origin destination : String) :
    Package :=
  { id := name, weight, destination,
    status := if origin == destination then .Delivered "" else .DroppedAt origin "" }

/-- `Package::is_package_loaded_in_train`. -/
def Package.is_package_loaded_in_train (p : Package) (train_id : String) : Bool :=
  match p.status with
  | .LoadedTo train => train == train_id
  | _ => false

/-- `Package::get_location`. -/
def Package.get_location (p : Package) : Option String :=
  match p.status with
  | .DroppedAt node_id _ => some node_id
  | _ => none

/-- `Package::drop_to_origin`. -/
def Package.drop_to_origin (p : Package) : Package :=
  match p.status with
  | .CantBeTransported node_id => { p with status := .DroppedAt node_id "" }
  | _ => p

/-- `Package::set_to_cant_be_transported`. -/
def Package.set_to_cant_be_transported (p : Package) : Package :=
  match p.status with
  | .DroppedAt node_id _ => { p with status := .CantBeTransported node_id }
  | _ => p

/-- `PackageHandler::find_package_index_by_id`. -/
def findPackageIdx (packages : List Package) (package_id : String) : Option Nat :=
  packages.findIdx? (fun p => p.id == package_id)

/-- `PackageHandler::get_package`. -/
def get_package (packages : List Package) (package_id : String) : Option Package :=
  packages.find? (fun p => p.id == package_id)

/-- `PackageHandler::have_undelivered_packages`: true iff some package is
`DroppedAt` or `LoadedTo`. -/
def have_undelivered_packages (packages : List Package) : Bool :=
  packages.any (fun p =>
    match p.status with
    | .Completed => false
    | .DroppedAt _ _ => true
    | .LoadedTo _ => true
    | .Delivered _ => false
    | .CantBeTransported _ => false)

/-- `PackageHandler::list_undelivered_packages_at_node`. -/
def list_undelivered_packages_at_node (packages : List Package)
    (node_id : String) : List String :=
  (packages.filter (fun p =>
    match p.status with
    | .DroppedAt id _ => id == node_id
    | _ => false)).map (·.id)

/-- `PackageHandler::list_undelivered_packages`. -/
def list_undelivered_packages (packages : List Package) : List String :=
  (packages.filter (fun p =>
    match p.status with
    | .DroppedAt _ _ => true
    | _ => false)).map (·.id)

/-- `PackageHandler::list_package_names_delivered`. -/
def list_package_names_delivered (packages : List Package) (train_id : String) :
    List String :=
  (packages.filter (fun p =>
    match p.status with
    | .Delivered id => id == train_id
    | _ => false)).map (·.id)

/-- `PackageHandler::delist_delivered_packages`: `Delivered → Completed`. -/
def delist_delivered_packages (packages : List Package) : List Package :=
  packages.map (fun p =>
    match p.status with
    | .Delivered _ => { p with status := .Completed }
    | _ => p)

/-! ## Route enumeration and least-time selection -/

/-- `TrainFreightSystem::get_travel_time_from_routes`: for each consecutive
pair, resolve the first node (unwrap: `none` on a missing node) and add the
connecting edge's travel time, silently skipping pairs with no direct edge. -/
def get_travel_time_from_routes (sys : TFS) : List String → Option Nat
  | a :: b :: rest =>
      match findNodeIdx sys a with
      | none => none
      | some pos =>
          let t :=
            match (sys.nodes.getD pos default).find_edge_with_node b with
            | some edge => edge.travel_time
            | none => 0
          match get_travel_time_from_routes sys (b :: rest) with
          | none => none
          | some r => some (t + r)
  | _ => some 0

/-- The `for edge in ...edges` loop of `get_all_possible_routes`, minus its
early-return check (hoisted into `get_all_possible_routes`, see there): for
each edge, recurse (`visit`) on the edge's target with a clone of the frame's
`routes`, and push the clone onto `possible_paths` when it reached the
destination. -/
def get_all_possible_routes_loop (destination : String)
    (visit : String → List (List String) →
      Option (List (List String) × List String)) :
    List Edge → List (List String) → Option (List (List String))
  | [], possible_paths => some possible_paths
  | edge :: edges, possible_paths =>
      match visit edge.node possible_paths with
      | none => none
      | some (possible_paths1, path) =>
          get_all_possible_routes_loop destination visit edges
            (if path.contains destination then possible_paths1 ++ [path]
             else possible_paths1)

/-- `TrainFreightSystem::get_all_possible_routes`: depth-first enumeration of
the simple paths from `origin` to `destination`; `possible_paths` and `routes`
are the two `&mut Vec` parameters, returned as the result.

The source checks `routes.contains(destination)` (push `routes` and return) at
the head of every loop iteration, but neither `routes` nor `destination`
changes across the iterations of one frame, so with a nonempty edge list the
check fires at the first iteration or never: it is hoisted in front of the
loop here.

`fuel` bounds the recursion depth; the source recursion depth is bounded by
the visited-guard on `routes` (every frame that recurses pushes a fresh
registered node onto `routes`), so `sys.nodes.length + 1` fuel only runs out
when the source panics on an unregistered node id. -/
def get_all_possible_routes (sys : TFS) : Nat → String → String →
    List (List String) → List String → Option (List (List String) × List String)
  | 0, _, _, _, _ => none
  | fuel + 1, origin, destination, possible_paths, routes =>
      if routes.contains origin then some (possible_paths, routes)
      else
        let routes' := routes ++ [origin]
        match findNodeIdx sys origin with
        | none => none
        | some pos =>
            match (sys.nodes.getD pos default).edges with
            | [] => some (possible_paths, routes')
            | edge :: edges =>
                if routes'.contains destination then
                  some (possible_paths ++ [routes'], routes')
                else
                  match get_all_possible_routes_loop destination
                      (fun o acc => get_all_possible_routes sys fuel o
                        destination acc routes')
                      (edge :: edges) possible_paths with
                  | none => none
                  | some possible_paths' => some (possible_paths', routes')

/-- The selection loop of `get_least_time_path_to_move_from_point_a_to_point_b`
over the enumerated paths, carrying `least_travel_time` (initially `0`) and
`least_travel_time_route` (initially `[]`): a path replaces the current best
when the best time is still `0` or the path's time is strictly smaller. -/
def least_time_loop (sys : TFS) : List (List String) → Nat → List String →
    Option (List String)
  | [], _, least_travel_time_route => some least_travel_time_route
  | path :: paths, least_travel_time, least_travel_time_route =>
      match get_travel_time_from_routes sys path with
      | none => none
      | some travel_time =>
          if least_travel_time = 0 ∨ travel_time < least_travel_time then
            least_time_loop sys paths travel_time path
          else
            least_time_loop sys paths least_travel_time least_travel_time_route

/-- The route enumeration as `get_least_time_path_to_move_from_point_a_to_point_b`
invokes it: both `&mut Vec`s start empty, and the fuel is the depth bound
discussed at `get_all_possible_routes`. -/
def possible_routes (sys : TFS) (node_a_id node_b_id : String) :
    Option (List (List String)) :=
  match get_all_possible_routes sys (sys.nodes.length + 1) node_a_id node_b_id
      [] [] with
  | none => none
  | some (possible_paths, _) => some possible_paths

/-- `TrainFreightSystem::get_least_time_path_to_move_from_point_a_to_point_b`. -/
def get_least_time_path_to_move_from_point_a_to_point_b (sys : TFS)
    (node_a_id node_b_id : String) : Option (List String) :=
  match possible_routes sys node_a_id node_b_id with
  | none => none
  | some paths => least_time_loop sys paths 0 []

/-- `TrainFreightSystem::get_least_time_path_to_deliver_package`: the package's
current location is unwrapped (`none` when the package is not `DroppedAt`). -/
def get_least_time_path_to_deliver_package (sys : TFS) (p : Package) :
    Option (List String) :=
  match p.get_location with
  | none => none
  | some origin =>
      get_least_time_path_to_move_from_point_a_to_point_b sys origin
        p.destination

/-- `TrainFreightSystem::list_all_undelivered_packages_least_possible_routes`. -/
def list_all_undelivered_packages_least_possible_routes (sys : TFS) :
    Option (List (List String)) :=
  (list_undelivered_packages sys.packages).mapM (fun package_id =>
    match get_package sys.packages package_id with
    | none => none
    | some p => get_least_time_path_to_deliver_package sys p)

/-- `TrainFreightSystem::get_packages_passing_to_node`: keep the packages whose
least-time path *from the given node* to their destination contains the node. -/
def get_packages_passing_to_node (sys : TFS) (node_id : String) :
    List String → Option (List String)
  | [] => some []
  | package_id :: rest =>
      match get_package sys.packages package_id with
      | none => none
      | some p =>
          match get_least_time_path_to_move_from_point_a_to_point_b sys node_id
              p.destination with
          | none => none
          | some path =>
              match get_packages_passing_to_node sys node_id rest with
              | none => none
              | some filtered =>
                  some (if path.contains node_id then package_id :: filtered
                        else filtered)

/-! ## The per-station dispatch pass -/

/-- The anchor-route loop of `deliver_packages_in_node`: among the waiting
packages' least-time routes keep the one with strictly more hops. -/
def highest_routes_loop (sys : TFS) : List String → List String →
    Option (List String)
  | [], highest_routes => some highest_routes
  | package_id :: rest, highest_routes =>
      match get_package sys.packages package_id with
      | none => none
      | some p =>
          match get_least_time_path_to_deliver_package sys p with
          | none => none
          | some routes =>
              highest_routes_loop sys rest
                (if highest_routes.length < routes.length then routes
                 else highest_routes)

/-- The innermost loop of the opportunistic-reroute check: over the packages
waiting at the closer station; on the first that fits the selected train,
move the train one hop toward `diff[0]` and abort the anchor plan.  Result
`some (some _)` is the `TrainPicking` early return, `some none` means the scan
fell through. -/
def reroute_packages_loop (sys : TFS) (biggest_train node_id : String)
    (diff : List String) : List String → Option (Option TFS)
  | [] => some none
  | package_id :: rest =>
      match get_train sys.trains biggest_train with
      | none => none
      | some train =>
          match get_package sys.packages package_id with
          | none => none
          | some this_package =>
              if train.can_accomodate_package this_package then
                match diff.get? 0 with
                | none => none
                | some d0 =>
                    match get_travel_time_from_routes sys [d0, node_id] with
                    | none => none
                    | some time =>
                        match move_to_node sys.trains biggest_train node_id d0
                            time with
                        | none => none
                        | some trains' =>
                            some (some { sys with trains := trains' })
              else reroute_packages_loop sys biggest_train node_id diff rest

/-- The `for check_node_id in diff` loop of the opportunistic-reroute check. -/
def reroute_diff_loop (sys : TFS) (biggest_train node_id : String)
    (highest_routes diff : List String) : List String → Option (Option TFS)
  | [] => some none
  | check_node_id :: rest =>
      match get_travel_time_from_routes sys [check_node_id, node_id] with
      | none => none
      | some time1 =>
          match get_travel_time_from_routes sys highest_routes with
          | none => none
          | some time2 =>
              if time1 < time2 then
                match reroute_packages_loop sys biggest_train node_id diff
                    (list_undelivered_packages_at_node sys.packages
                      check_node_id) with
                | none => none
                | some (some sys') => some (some sys')
                | some none =>
                    reroute_diff_loop sys biggest_train node_id highest_routes
                      diff rest
              else
                reroute_diff_loop sys biggest_train node_id highest_routes diff
                  rest

/-- The `for routes in &all_routes` loop of the opportunistic-reroute check:
`diff` collects the stations on the package's route that are absent from the
anchor route, in reverse order. -/
def reroute_routes_loop (sys : TFS) (biggest_train node_id : String)
    (highest_routes : List String) : List (List String) → Option (Option TFS)
  | [] => some none
  | routes :: rest =>
      let diff := (routes.filter
        (fun check_node_id => !highest_routes.contains check_node_id)).reverse
      match reroute_diff_loop sys biggest_train node_id highest_routes diff
          diff with
      | none => none
      | some (some sys') => some (some sys')
      | some none =>
          reroute_routes_loop sys biggest_train node_id highest_routes rest

/-- The commit loading loop of `deliver_packages_in_node`: for each filtered
package id, `get_package_mut` (unwrap) then `TrainHandler::load_package`. -/
def load_packages_loop (trains : List Train) (packages : List Package)
    (biggest_train : String) : List String →
    Option (List Train × List Package)
  | [] => some (trains, packages)
  | package_id :: rest =>
      match findPackageIdx packages package_id with
      | none => none
      | some pos =>
          match packages.get? pos with
          | none => none
          | some p =>
              match handler_load_package trains biggest_train p with
              | none => none
              | some (trains', p') =>
                  load_packages_loop trains' (packages.set pos p') biggest_train
                    rest

/-- `TrainFreightSystem::deliver_packages_in_node`. -/
def deliver_packages_in_node (sys : TFS) (node_id : String)
    (node_index : Nat) : Option (DeliveryResult × TFS) :=
  let packages := list_undelivered_packages_at_node sys.packages node_id
  if packages.isEmpty then some (.NoPackages, sys)
  else
    match find_largest_capacity_train_in_node sys.trains node_id with
    | none => some (.NoTrains, sys)
    | some biggest_train =>
        match highest_routes_loop sys packages [] with
        | none => none
        | some highest_routes =>
            match highest_routes.get? 1 with
            | none => none
            | some destination =>
                match get_packages_passing_to_node sys destination packages with
                | none => none
                | some filtered_packages =>
                    match list_all_undelivered_packages_least_possible_routes
                        sys with
                    | none => none
                    | some all_routes =>
                        match reroute_routes_loop sys biggest_train node_id
                            highest_routes all_routes with
                        | none => none
                        | some (some sys') => some (.TrainPicking, sys')
                        | some none =>
                            match load_packages_loop sys.trains sys.packages
                                biggest_train filtered_packages with
                            | none => none
                            | some (trains1, packages1) =>
                                match (sys.nodes.getD node_index
                                    default).find_edge_with_node destination with
                                | none => none
                                | some edge =>
                                    match move_to_node trains1 biggest_train
                                        node_id destination edge.travel_time with
                                    | none => none
                                    | some trains2 =>
                                        let sys' : TFS := { sys with
                                          trains := trains2,
                                          packages := packages1 }
                                        if (list_undelivered_packages_at_node
                                            sys'.packages node_id).isEmpty then
                                          some (.AllPackageLoaded, sys')
                                        else
                                          some (.NotAllPackageLoaded, sys')

/-- The `loop { ... }` around `deliver_packages_in_node` inside
`deliver_packages_in_nodes`: repeat while the result is
`NotAllPackageLoaded`.  The loop is *not* bounded by the source; `fuel = 0`
yields `none` (divergence within the given bound). -/
def node_loop (sys : TFS) (node_id : String) (node_index : Nat) :
    Nat → Option TFS
  | 0 => none
  | fuel + 1 =>
      match deliver_packages_in_node sys node_id node_index with
      | none => none
      | some (result, sys') =>
          match result with
          | .NotAllPackageLoaded => node_loop sys' node_id node_index fuel
          | _ => some sys'

/-- The `for (index, node_id) in nodes.iter().enumerate()` loop of
`deliver_packages_in_nodes`. -/
def nodes_loop (fuel : Nat) : List String → Nat → TFS → Option TFS
  | [], _, sys => some sys
  | node_id :: rest, index, sys =>
      match node_loop sys node_id index fuel with
      | none => none
      | some sys' => nodes_loop fuel rest (index + 1) sys'

/-- The inner train scan at one hop of the dropped-package walk: the first
stopped train at the hop that can accommodate the package is repositioned one
hop backward toward the package. -/
def hop_trains_loop (sys : TFS) (p : Package) (r_prev r_i : String) :
    List String → Option (Bool × TFS)
  | [] => some (false, sys)
  | train_id :: rest =>
      let this_route := [r_prev, r_i]
      match get_travel_time_from_routes sys this_route with
      | none => none
      | some travel_time =>
          match get_train sys.trains train_id with
          | none => none
          | some train =>
              if train.can_accomodate_package p then
                match move_to_node sys.trains train_id r_i r_prev
                    travel_time with
                | none => none
                | some trains' => some (true, { sys with trains := trains' })
              else hop_trains_loop sys p r_prev r_i rest

/-- The `for i in 1..routes.len()` walk over a dropped package's route: at
each hop scan the trains stopped there; a successful reposition at one hop
does not stop the walk over the later hops. -/
def hop_loop (p : Package) : TFS → List (String × String) → Bool →
    Option (Bool × TFS)
  | sys, [], has_trains_moved => some (has_trains_moved, sys)
  | sys, (r_prev, r_i) :: rest, has_trains_moved =>
      match hop_trains_loop sys p r_prev r_i
          (list_stopped_trains_at_node sys.trains r_i) with
      | none => none
      | some (moved, sys') => hop_loop p sys' rest (has_trains_moved || moved)

/-- The system-wide fallback scan of `deliver_packages_in_nodes`: every
stopped train, in registration order; compute its own least-time route toward
the package's destination and reposition it one hop if it fits.  The
`routes[1]` index is taken before the capacity check, as in the source. -/
def fallback_trains_loop (p : Package) : TFS → List String → Option TFS
  | sys, [] => some sys
  | sys, train_id :: rest =>
      match get_train sys.trains train_id with
      | none => none
      | some train =>
          match train.get_location with
          | none => none
          | some train_location =>
              match get_least_time_path_to_move_from_point_a_to_point_b sys
                  train_location p.destination with
              | none => none
              | some routes =>
                  match routes.get? 1 with
                  | none => none
                  | some r1 =>
                      match get_travel_time_from_routes sys
                          [train_location, r1] with
                      | none => none
                      | some time =>
                          if train.can_accomodate_package p then
                            match move_to_node sys.trains train_id
                                train_location r1 time with
                            | none => none
                            | some trains' =>
                                some { sys with trains := trains' }
                          else fallback_trains_loop p sys rest

/-- The `for package_id in &dropped_packages` loop closing
`deliver_packages_in_nodes`. -/
def dropped_packages_loop : TFS → List String → Option TFS
  | sys, [] => some sys
  | sys, package_id :: rest =>
      match get_package sys.packages package_id with
      | none => none
      | some p =>
          match get_least_time_path_to_deliver_package sys p with
          | none => none
          | some routes =>
              match hop_loop p sys (routes.zip routes.tail) false with
              | none => none
              | some (has_trains_moved, sys') =>
                  if has_trains_moved then dropped_packages_loop sys' rest
                  else
                    match fallback_trains_loop p sys'
                        (list_stopped_trains sys'.trains) with
                    | none => none
                    | some sys'' => dropped_packages_loop sys'' rest

/-- `TrainFreightSystem::deliver_packages_in_nodes`. -/
def deliver_packages_in_nodes (fuel : Nat) (sys : TFS) : Option TFS :=
  match nodes_loop fuel (sys.nodes.map (·.id)) 0 sys with
  | none => none
  | some sys' =>
      dropped_packages_loop sys' (list_undelivered_packages sys'.packages)

/-! ## Arrival processing, blacklist, and the outer simulation loop -/

/-- The inner `for package in packages` loop of
`unload_packages_in_trains_that_stopped`, for one stopped train id. -/
def unload_packages_of_train (trains : List Train) (train_id : String) :
    List Package → Option (List Train × List Package)
  | [] => some (trains, [])
  | p :: rest =>
      if p.is_package_loaded_in_train train_id then
        match findTrainIdx trains train_id with
        | none => none
        | some pos =>
            match trains.get? pos with
            | none => none
            | some tr =>
                match tr.get_location with
                | none => none
                | some node_id =>
                    let (tr', p') := tr.unload_package p node_id
                    match unload_packages_of_train (trains.set pos tr')
                        train_id rest with
                    | none => none
                    | some (trains', rest') => some (trains', p' :: rest')
      else
        match unload_packages_of_train trains train_id rest with
        | none => none
        | some (trains', rest') => some (trains', p :: rest')

/-- The outer loop of `TrainHandler::unload_packages_in_trains_that_stopped`. -/
def unload_stopped_loop : List String → List Train → List Package →
    Option (List Train × List Package)
  | [], trains, packages => some (trains, packages)
  | train_id :: rest, trains, packages =>
      match unload_packages_of_train trains train_id packages with
      | none => none
      | some (trains', packages') => unload_stopped_loop rest trains' packages'

/-- `TrainHandler::unload_packages_in_trains_that_stopped`. -/
def unload_packages_in_trains_that_stopped (trains : List Train)
    (packages : List Package) : Option (List Train × List Package) :=
  unload_stopped_loop (list_stopped_trains trains) trains packages

/-- `TrainFreightSystem::train_arrived`: advance every moving train by the
minimum in-flight travel time (`0` when none is moving), then unload the
trains that stopped. -/
def train_arrived (sys : TFS) : Option (Nat × TFS) :=
  let least_travel_time :=
    (get_moving_train_lowest_travel_time sys.trains).getD 0
  let trains1 := time_elapsed sys.trains least_travel_time
  match unload_packages_in_trains_that_stopped trains1 sys.packages with
  | none => none
  | some (trains2, packages2) =>
      some (least_travel_time,
        { sys with trains := trains2, packages := packages2 })

/-- `TrainFreightSystem::blacklist_packages_that_cant_be_transported`: freeze
the waiting packages no train can carry, then thaw the frozen packages some
train can now carry. -/
def blacklist_packages_that_cant_be_transported (sys : TFS) : TFS :=
  let packages1 := sys.packages.map (fun p =>
    if (match p.status with | .DroppedAt _ _ => true | _ => false) &&
        !can_pacakge_be_transported_by_any_trains sys.trains p then
      p.set_to_cant_be_transported
    else p)
  let packages2 := packages1.map (fun p =>
    if (match p.status with | .CantBeTransported _ => true | _ => false) &&
        can_pacakge_be_transported_by_any_trains sys.trains p then
      p.drop_to_origin
    else p)
  { sys with packages := packages2 }

/-- One iteration of the `while have_undelivered_packages` body of
`deliver_packages` (the per-train report line is output only). -/
def deliver_step (fuel : Nat) (sys : TFS) : Option (Nat × TFS) :=
  match deliver_packages_in_nodes fuel sys with
  | none => none
  | some sys1 =>
      match train_arrived sys1 with
      | none => none
      | some (travel_time, sys2) =>
          some (travel_time,
            { sys2 with packages := delist_delivered_packages sys2.packages })

/-- The `while self.package_handler.have_undelivered_packages()` loop of
`deliver_packages`, accumulating the total delivery time. -/
def deliver_loop : Nat → TFS → Nat → Option (Nat × TFS)
  | 0, sys, total =>
      if have_undelivered_packages sys.packages then none
      else some (total, sys)
  | fuel + 1, sys, total =>
      if have_undelivered_packages sys.packages then
        match deliver_step (fuel + 1) sys with
        | none => none
        | some (travel_time, sys') =>
            deliver_loop fuel sys' (total + travel_time)
      else some (total, sys)

/-- `TrainFreightSystem::deliver_packages`. -/
def deliver_packages (fuel : Nat) (sys : TFS) : Option (Nat × TFS) :=
  deliver_loop fuel (blacklist_packages_that_cant_be_transported sys) 0

/-! ## Registration operations -/

/-- `TrainFreightSystem::add_node`. -/
def add_node (sys : TFS) (name : String) : Option ErrorKind × TFS :=
  if (findNodeIdx sys name).isSome then (some .AddStationError, sys)
  else (none, { sys with nodes := sys.nodes ++ [{ id := name, edges := [] }] })

/-- `TrainFreightSystem::add_edge`.  The first `Node::add_edge` push is kept
even when the second one fails: the function is not atomic on failure. -/
def add_edge (sys : TFS) (name node_1 node_2 : String) (travel_time : Nat) :
    Option ErrorKind × TFS :=
  match findNodeIdx sys node_1 with
  | none => (some .AddEdgeError, sys)
  | some node_1_pos =>
      match findNodeIdx sys node_2 with
      | none => (some .AddEdgeError, sys)
      | some node_2_pos =>
          if node_1_pos = node_2_pos then (some .AddEdgeError, sys)
          else
            match (sys.nodes.getD node_1_pos default).add_edge
                ⟨name, node_2, travel_time⟩ with
            | (some e, _) => (some e, sys)
            | (none, node_1') =>
                let sys1 : TFS := { sys with nodes := sys.nodes.set node_1_pos node_1' }
                match (sys1.nodes.getD node_2_pos default).add_edge
                    ⟨name, node_1, travel_time⟩ with
                | (some e, _) => (some e, sys1)
                | (none, node_2') =>
                    (none, { sys1 with nodes := sys1.nodes.set node_2_pos node_2' })

/-- `TrainFreightSystem::add_train` composed with `TrainHandler::add_train`:
location must exist, id must be fresh; the new train is `StoppedAt` the
location with zero load. -/
def add_train (sys : TFS) (name : String) (max_capacity : Nat)
    (location : String) : Option ErrorKind × TFS :=
  match findNodeIdx sys location with
  | none => (some .AddTrainError, sys)
  | some pos =>
      let node_id := (sys.nodes.getD pos default).id
      if (findTrainIdx sys.trains name).isSome then (some .AddTrainError, sys)
      else
        (none, { sys with trains := sys.trains ++
          [{ id := name, max_capacity, status := .StoppedAt node_id, load_size := 0 }] })

/-- `TrainFreightSystem::add_package` composed with
`PackageHandler::add_package`. -/
def add_package (sys : TFS) (name : String) (weight : Nat)
    (origin destination : String) : Option ErrorKind × TFS :=
  match findNodeIdx sys origin with
  | none => (some .AddPackageError, sys)
  | some origin_pos =>
      match findNodeIdx sys destination with
      | none => (some .AddPackageError, sys)
      | some destination_pos =>
          let origin_id := (sys.nodes.getD origin_pos default).id
          let destination_id := (sys.nodes.getD destination_pos default).id
          if (findPackageIdx sys.packages name).isSome then
            (some .AddPackageError, sys)
          else
            (none, { sys with packages := sys.packages ++
              [Package.make name weight origin_id destination_id] })

/-! ## Concrete worlds used by the claims

`scnA` is the world the repository's `test_system` builds; `scnA_final`,
`scnB_final`, `scnC_after_blacklist`, `scnC_tick1`, `scnC_stuck` are the
intermediate simulation states reached from it (each is validated against the
executable semantics by `rfl` proofs below). -/

/-- The A/B/C station graph of the reference scenarios. -/
def nodesABC : List Node :=
  [⟨"A", [⟨"E1", "B", 30⟩]⟩,
   ⟨"B", [⟨"E1", "A", 30⟩, ⟨"E2", "C", 10⟩]⟩,
   ⟨"C", [⟨"E2", "B", 10⟩]⟩]

/-- Scenario A of `test_system`: stations A,B,C; edges A-B=30 and C-B=10;
package K1 (weight 5) from A to C; train Q1 (capacity 6) at B. -/
def scnA : TFS :=
  (add_train (add_package (add_edge (add_edge (add_node (add_node (add_node
    (default : TFS) "A").2 "B").2 "C").2 "E1" "A" "B" 30).2
    "E2" "C" "B" 10).2 "K1" 5 "A" "C").2 "Q1" 6 "B").2

/-- The state after the first `deliver_packages` call of `test_system`. -/
def scnA_final : TFS :=
  ⟨nodesABC, [⟨"Q1", 6, .StoppedAt "C", 0⟩], [⟨"K1", 5, "C", .Completed⟩]⟩

/-- Scenario B of `test_system`: add package K2 (weight 25) from B to A. -/
def scnB : TFS := (add_package scnA_final "K2" 25 "B" "A").2

/-- The state after the second `deliver_packages` call of `test_system`. -/
def scnB_final : TFS :=
  ⟨nodesABC, [⟨"Q1", 6, .StoppedAt "C", 0⟩],
   [⟨"K1", 5, "C", .Completed⟩, ⟨"K2", 25, "A", .CantBeTransported "B"⟩]⟩

/-- Scenario C of `test_system`: add train Q2 (capacity 30) at C. -/
def scnC : TFS := (add_train scnB_final "Q2" 30 "C").2

/-- Scenario C right after the initial blacklist pass: K2 has thawed back to
waiting at B. -/
def scnC_after_blacklist : TFS :=
  ⟨nodesABC,
   [⟨"Q1", 6, .StoppedAt "C", 0⟩, ⟨"Q2", 30, .StoppedAt "C", 0⟩],
   [⟨"K1", 5, "C", .Completed⟩, ⟨"K2", 25, "A", .DroppedAt "B" ""⟩]⟩

/-- Scenario C after the first dispatch pass: the fallback scan has dispatched
Q2 one hop from C toward the waiting K2 at B. -/
def scnC_dispatched : TFS :=
  ⟨nodesABC,
   [⟨"Q1", 6, .StoppedAt "C", 0⟩, ⟨"Q2", 30, .DeliveringTo "C" "B" 10, 0⟩],
   [⟨"K1", 5, "C", .Completed⟩, ⟨"K2", 25, "A", .DroppedAt "B" ""⟩]⟩

/-- Scenario C after the first outer iteration (10 minutes: Q2 moved C to B). -/
def scnC_tick1 : TFS :=
  ⟨nodesABC,
   [⟨"Q1", 6, .StoppedAt "C", 0⟩, ⟨"Q2", 30, .StoppedAt "B", 0⟩],
   [⟨"K1", 5, "C", .Completed⟩, ⟨"K2", 25, "A", .DroppedAt "B" ""⟩]⟩

/-- The fixpoint state of the per-station loop at B in scenario C: the scan
index confusion selects `trains[0]` (Q1, not stopped at B, capacity 6), which
cannot load K2 and is re-dispatched B to A forever. -/
def scnC_stuck : TFS :=
  ⟨nodesABC,
   [⟨"Q1", 6, .DeliveringTo "B" "A" 30, 0⟩, ⟨"Q2", 30, .StoppedAt "B", 0⟩],
   [⟨"K1", 5, "C", .Completed⟩, ⟨"K2", 25, "A", .DroppedAt "B" ""⟩]⟩

/-- A registered world whose package origin (A) is disconnected from its
destination (B), with a train stopped at the origin. -/
def disconnectedWorld : TFS :=
  (add_train (add_package (add_node (add_node (default : TFS) "A").2 "B").2
    "K" 5 "A" "B").2 "T" 10 "A").2

/-- A registered world satisfying C3's hypotheses (K weighs 5 ≤ capacity 10 of
T2; A and B are connected) on which the dispatch loop at A livelocks: the scan
index confusion selects `trains[0]` (T1 at B, capacity 1) for station A. -/
def livelockWorld : TFS :=
  (add_train (add_train (add_package (add_edge (add_node (add_node
    (default : TFS) "A").2 "B").2 "E1" "A" "B" 30).2 "K" 5 "A" "B").2
    "T1" 1 "B").2 "T2" 10 "A").2

/-- `livelockWorld` after one dispatch pass at A: T1 teleport-dispatched
A to B; nothing else changed.  A fixpoint of `deliver_packages_in_node`. -/
def livelockStuck : TFS :=
  ⟨[⟨"A", [⟨"E1", "B", 30⟩]⟩, ⟨"B", [⟨"E1", "A", 30⟩]⟩],
   [⟨"T1", 1, .DeliveringTo "A" "B" 30, 0⟩, ⟨"T2", 10, .StoppedAt "A", 0⟩],
   [⟨"K", 5, "B", .DroppedAt "A" ""⟩]⟩

/-- A graph with a zero-travel-time edge A-B plus a positive two-hop detour
A-C-B: the enumeration finds the zero-time path first, but the selection
loop's `least == 0` re-trigger then replaces it by the slower path. -/
def zeroEdgeWorld : TFS :=
  (add_edge (add_edge (add_edge (add_node (add_node (add_node
    (default : TFS) "A").2 "B").2 "C").2 "E1" "A" "B" 0).2
    "E2" "A" "C" 1).2 "E3" "C" "B" 1).2

/-- Trains T1 (capacity 5) and T2 (capacity 7) are stopped at B, but T0
(capacity 100) is stopped at A and heads the registration list. -/
def confusedTrains : List Train :=
  [⟨"T0", 100, .StoppedAt "A", 0⟩,
   ⟨"T1", 5, .StoppedAt "B", 0⟩,
   ⟨"T2", 7, .StoppedAt "B", 0⟩]

/-- Stations A,B,D with edges A-B=30 and A-D=10; train T (capacity 100) at A;
packages K1 (A to B) and K2 (A to D) waiting at A.  K2's least-time route
[A,D] does not pass through the anchor next hop B, yet the commit loads it. -/
def sidePackageWorld : TFS :=
  (add_package (add_package (add_train (add_edge (add_edge
    (add_node (add_node (add_node (default : TFS) "A").2 "B").2 "D").2
    "E1" "A" "B" 30).2 "E2" "A" "D" 10).2 "T" 100 "A").2
    "K1" 1 "A" "B").2 "K2" 1 "A" "D").2

/-- Stations A,B with edge 30 and package K (weight 5) from B to A, no train:
running `deliver_packages` once freezes K. -/
def frozenSeedWorld : TFS :=
  (add_package (add_edge (add_node (add_node (default : TFS) "A").2 "B").2
    "E1" "A" "B" 30).2 "K" 5 "B" "A").2

/-- `frozenSeedWorld` after one (empty) run: K is `CantBeTransported`. -/
def frozenWorld : TFS :=
  ⟨[⟨"A", [⟨"E1", "B", 30⟩]⟩, ⟨"B", [⟨"E1", "A", 30⟩]⟩], [],
   [⟨"K", 5, "A", .CantBeTransported "B"⟩]⟩

/-- `frozenWorld` plus a train T (capacity 10) at A: nothing is awaiting
pickup or in transit, but the frozen K now fits T. -/
def thawableWorld : TFS := (add_train frozenWorld "T" 10 "A").2

/-- Stations A,B,C where the edge E1 joins A-B; used to show `add_edge`'s
non-atomic failure when E1 is then reused for C-B. -/
def halfEdgeWorld : TFS :=
  (add_edge (add_node (add_node (add_node (default : TFS) "A").2 "B").2
    "C").2 "E1" "A" "B" 30).2

/-- A world with the single station A. -/
def oneNodeWorld : TFS := (add_node (default : TFS) "A").2

/-- The claimed invariant: every registered train's current load is within
its maximum capacity. -/
abbrev TrainsWithinCapacity (trains : List Train) : Prop :=
  ∀ t ∈ trains, t.load_size ≤ t.max_capacity

/-- Follows the spec's words (§4.4 `largestCapacityStoppedAt`): scan the
stopped trains in registration order, replacing the current best only on
strictly greater capacity (the first train wins ties).  Used to compare the
source's index-confused scan against the claim. -/
def spec_first_largest : List Train → Option Train
  | [] => none
  | t :: ts => some (ts.foldl
      (fun best u => if best.max_capacity < u.max_capacity then u else best) t)

/-! ## Fuel monotonicity: a `some` result is the source's result

The fuel parameters only bound the two source loops that have no intrinsic
bound.  The following lemmas show that once a run finishes within some fuel,
any larger fuel yields the same answer, so `some` results are the values the
unbounded source loops return. -/

theorem node_loop_mono : ∀ (f f' : Nat) (sys : TFS) (node_id : String)
    (node_index : Nat) (r : TFS), f ≤ f' →
    node_loop sys node_id node_index f = some r →
    node_loop sys node_id node_index f' = some r := by
  intro f
  induction f with
  | zero => intro f' sys node_id node_index r _ h; simp [node_loop] at h
  | succ g ih =>
      intro f' sys node_id node_index r hle h
      obtain ⟨g', rfl⟩ : ∃ g', f' = g' + 1 := ⟨f' - 1, by omega⟩
      rw [node_loop] at h ⊢
      cases hd : deliver_packages_in_node sys node_id node_index with
      | none => rw [hd] at h; cases h
      | some p =>
          rw [hd] at h
          obtain ⟨res, sys'⟩ := p
          cases res with
          | NotAllPackageLoaded =>
              simp only at h ⊢
              exact ih g' sys' node_id node_index r (by omega) h
          | NoPackages => exact h
          | NoTrains => exact h
          | AllPackageLoaded => exact h
          | TrainPicking => exact h

theorem nodes_loop_mono : ∀ (ids : List String) (f f' index : Nat) (sys r : TFS),
    f ≤ f' → nodes_loop f ids index sys = some r →
    nodes_loop f' ids index sys = some r := by
  intro ids
  induction ids with
  | nil => intro f f' index sys r _ h; simpa [nodes_loop] using h
  | cons node_id rest ih =>
      intro f f' index sys r hle h
      rw [nodes_loop] at h ⊢
      cases hn : node_loop sys node_id index f with
      | none => rw [hn] at h; cases h
      | some sys' =>
          rw [hn] at h
          rw [node_loop_mono f f' sys node_id index sys' hle hn]
          exact ih f f' (index + 1) sys' r hle h

theorem deliver_packages_in_nodes_mono (f f' : Nat) (sys r : TFS)
    (hle : f ≤ f') (h : deliver_packages_in_nodes f sys = some r) :
    deliver_packages_in_nodes f' sys = some r := by
  rw [deliver_packages_in_nodes] at h ⊢
  cases hn : nodes_loop f (sys.nodes.map (·.id)) 0 sys with
  | none => rw [hn] at h; cases h
  | some sys' =>
      rw [hn] at h
      rw [nodes_loop_mono _ f f' 0 sys sys' hle hn]
      exact h

theorem deliver_step_mono (f f' : Nat) (sys : TFS) (r : Nat × TFS)
    (hle : f ≤ f') (h : deliver_step f sys = some r) :
    deliver_step f' sys = some r := by
  rw [deliver_step] at h ⊢
  cases hn : deliver_packages_in_nodes f sys with
  | none => rw [hn] at h; cases h
  | some sys1 =>
      rw [hn] at h
      rw [deliver_packages_in_nodes_mono f f' sys sys1 hle hn]
      exact h

theorem deliver_loop_mono : ∀ (f f' : Nat) (sys : TFS) (total : Nat)
    (r : Nat × TFS), f ≤ f' → deliver_loop f sys total = some r →
    deliver_loop f' sys total = some r := by
  intro f
  induction f with
  | zero =>
      intro f' sys total r _ h
      rw [deliver_loop] at h
      by_cases hu : have_undelivered_packages sys.packages
      · rw [if_pos hu] at h; cases h
      · rw [if_neg hu] at h
        cases f' with
        | zero => rw [deliver_loop, if_neg hu]; exact h
        | succ g' => rw [deliver_loop, if_neg hu]; exact h
  | succ g ih =>
      intro f' sys total r hle h
      obtain ⟨g', rfl⟩ : ∃ g', f' = g' + 1 := ⟨f' - 1, by omega⟩
      rw [deliver_loop] at h ⊢
      by_cases hu : have_undelivered_packages sys.packages
      · rw [if_pos hu] at h ⊢
        cases hs : deliver_step (g + 1) sys with
        | none => rw [hs] at h; cases h
        | some p =>
            rw [hs] at h
            rw [deliver_step_mono (g + 1) (g' + 1) sys p (by omega) hs]
            exact ih g' p.2 (total + p.1) r (by omega) h
      · rw [if_neg hu] at h ⊢; exact h

theorem deliver_packages_mono (f f' : Nat) (sys : TFS) (r : Nat × TFS)
    (hle : f ≤ f') (h : deliver_packages f sys = some r) :
    deliver_packages f' sys = some r :=
  deliver_loop_mono f f' _ 0 r hle h

/-- When nothing is awaiting pickup or in transit, the outer loop exits at
once with the accumulated total, for every fuel. -/
theorem deliver_loop_of_no_undelivered (fuel : Nat) (sys : TFS) (total : Nat)
    (h : have_undelivered_packages sys.packages = false) :
    deliver_loop fuel sys total = some (total, sys) := by
  cases fuel with
  | zero => rw [deliver_loop, if_neg (by simp [h])]
  | succ g => rw [deliver_loop, if_neg (by simp [h])]

/-! ## Unfolding helpers for the fuelled loops -/

theorem node_loop_break {sys sys' : TFS} {node_id : String} {node_index : Nat}
    {res : DeliveryResult}
    (h : deliver_packages_in_node sys node_id node_index = some (res, sys'))
    (hres : res ≠ .NotAllPackageLoaded) (f : Nat) :
    node_loop sys node_id node_index (f + 1) = some sys' := by
  rw [node_loop, h]
  cases res with
  | NotAllPackageLoaded => exact absurd rfl hres
  | NoPackages => rfl
  | NoTrains => rfl
  | AllPackageLoaded => rfl
  | TrainPicking => rfl

theorem node_loop_cont {sys sys' : TFS} {node_id : String} {node_index : Nat}
    (h : deliver_packages_in_node sys node_id node_index =
      some (.NotAllPackageLoaded, sys')) (f : Nat) :
    node_loop sys node_id node_index (f + 1) =
      node_loop sys' node_id node_index f := by
  rw [node_loop, h]

theorem node_loop_of_none {sys : TFS} {node_id : String} {node_index : Nat}
    (h : deliver_packages_in_node sys node_id node_index = none) (f : Nat) :
    node_loop sys node_id node_index (f + 1) = none := by
  rw [node_loop, h]

theorem node_loop_fix {sys : TFS} {node_id : String} {node_index : Nat}
    (h : deliver_packages_in_node sys node_id node_index =
      some (.NotAllPackageLoaded, sys)) :
    ∀ f, node_loop sys node_id node_index f = none := by
  intro f
  induction f with
  | zero => rfl
  | succ g ih => rw [node_loop_cont h g]; exact ih

theorem nodes_loop_cons_some {fuel : Nat} {node_id : String}
    {rest : List String} {index : Nat} {sys sys' : TFS}
    (h : node_loop sys node_id index fuel = some sys') :
    nodes_loop fuel (node_id :: rest) index sys =
      nodes_loop fuel rest (index + 1) sys' := by
  rw [nodes_loop, h]

theorem nodes_loop_cons_none {fuel : Nat} {node_id : String}
    {rest : List String} {index : Nat} {sys : TFS}
    (h : node_loop sys node_id index fuel = none) :
    nodes_loop fuel (node_id :: rest) index sys = none := by
  rw [nodes_loop, h]

theorem deliver_packages_in_nodes_of_nodes_loop {fuel : Nat} {sys sys' : TFS}
    (h : nodes_loop fuel (sys.nodes.map (·.id)) 0 sys = some sys') :
    deliver_packages_in_nodes fuel sys =
      dropped_packages_loop sys' (list_undelivered_packages sys'.packages) := by
  rw [deliver_packages_in_nodes, h]

theorem deliver_packages_in_nodes_of_nodes_loop_none {fuel : Nat} {sys : TFS}
    (h : nodes_loop fuel (sys.nodes.map (·.id)) 0 sys = none) :
    deliver_packages_in_nodes fuel sys = none := by
  rw [deliver_packages_in_nodes, h]

theorem deliver_step_of_in_nodes_none {fuel : Nat} {sys : TFS}
    (h : deliver_packages_in_nodes fuel sys = none) :
    deliver_step fuel sys = none := by
  rw [deliver_step, h]

theorem deliver_loop_succ_of_step {sys : TFS} {t : Nat} {sys' : TFS}
    (hu : have_undelivered_packages sys.packages = true)
    (f total : Nat) (hs : deliver_step (f + 1) sys = some (t, sys')) :
    deliver_loop (f + 1) sys total = deliver_loop f sys' (total + t) := by
  rw [deliver_loop, if_pos (by simp [hu]), hs]

theorem deliver_loop_succ_of_step_none {sys : TFS}
    (hu : have_undelivered_packages sys.packages = true)
    (f total : Nat) (hs : deliver_step (f + 1) sys = none) :
    deliver_loop (f + 1) sys total = none := by
  rw [deliver_loop, if_pos (by simp [hu]), hs]

theorem deliver_loop_zero_of_undelivered {sys : TFS}
    (hu : have_undelivered_packages sys.packages = true) (total : Nat) :
    deliver_loop 0 sys total = none := by
  rw [deliver_loop, if_pos (by simp [hu])]

/-! ## Scenario C: the per-station loop at B livelocks -/

theorem scnC_stuck_is_fixpoint :
    deliver_packages_in_node scnC_stuck "B" 1 =
      some (.NotAllPackageLoaded, scnC_stuck) := by rfl

theorem scnC_tick1_to_stuck :
    deliver_packages_in_node scnC_tick1 "B" 1 =
      some (.NotAllPackageLoaded, scnC_stuck) := by rfl

theorem scnC_tick1_node_b_diverges (f : Nat) :
    node_loop scnC_tick1 "B" 1 (f + 1) = none := by
  rw [node_loop_cont scnC_tick1_to_stuck f]
  exact node_loop_fix scnC_stuck_is_fixpoint f

theorem scnC_tick1_step_none (fuel : Nat) :
    deliver_step fuel scnC_tick1 = none := by
  apply deliver_step_of_in_nodes_none
  apply deliver_packages_in_nodes_of_nodes_loop_none
  show nodes_loop fuel ["A", "B", "C"] 0 scnC_tick1 = none
  cases fuel with
  | zero => exact nodes_loop_cons_none rfl
  | succ f =>
      rw [nodes_loop_cons_some
        (@node_loop_break scnC_tick1 scnC_tick1 "A" 0 .NoPackages
          (by rfl) (by simp) f)]
      exact nodes_loop_cons_none (scnC_tick1_node_b_diverges f)

theorem scnC_tick1_diverges (fuel total : Nat) :
    deliver_loop fuel scnC_tick1 total = none := by
  cases fuel with
  | zero => exact deliver_loop_zero_of_undelivered (by rfl) total
  | succ f =>
      exact deliver_loop_succ_of_step_none (by rfl) f total
        (scnC_tick1_step_none (f + 1))

theorem scnC_first_step (f : Nat) :
    deliver_step (f + 1) scnC_after_blacklist = some (10, scnC_tick1) := by
  have h1 : nodes_loop (f + 1) ["A", "B", "C"] 0 scnC_after_blacklist =
      some scnC_after_blacklist := by
    rw [nodes_loop_cons_some
      (@node_loop_break scnC_after_blacklist scnC_after_blacklist "A" 0
        .NoPackages (by rfl) (by simp) f)]
    rw [nodes_loop_cons_some
      (@node_loop_break scnC_after_blacklist scnC_after_blacklist "B" 1
        .NoTrains (by rfl) (by simp) f)]
    rw [nodes_loop_cons_some
      (@node_loop_break scnC_after_blacklist scnC_after_blacklist "C" 2
        .NoPackages (by rfl) (by simp) f)]
    rfl
  have h2 : deliver_packages_in_nodes (f + 1) scnC_after_blacklist =
      some scnC_dispatched := by
    rw [deliver_packages_in_nodes_of_nodes_loop h1]; rfl
  rw [deliver_step, h2]; rfl

theorem scnC_deliver_diverges (fuel : Nat) :
    deliver_packages fuel scnC = none := by
  rw [deliver_packages,
    (by rfl : blacklist_packages_that_cant_be_transported scnC =
      scnC_after_blacklist)]
  cases fuel with
  | zero => exact deliver_loop_zero_of_undelivered (by rfl) 0
  | succ f =>
      rw [deliver_loop_succ_of_step (by rfl) f 0 (scnC_first_step f)]
      exact scnC_tick1_diverges f (0 + 10)

/-! ## Claim C1 -/

/-- C1: running the three reference scenarios in sequence: the first
`deliver_packages` call returns 70 minutes; after adding K2 (weight 25, B to
A) the second call returns 0 and K2 is frozen `CantBeTransported`; after
adding Q2 (capacity 30, at C) K2 does thaw back to awaiting pickup — but the
third call, asserted by the repository's own test to return 40, never
returns: for every fuel bound the embedded loop yields `none`, because the
per-station loop at B repeats forever on an identical state (see
`scnC_stuck_is_fixpoint`), the largest-capacity scan having selected
`trains[0]` (Q1, which is not stopped at B) through its filtered-index
confusion. -/
theorem c1_reference_scenarios (fuel : Nat) (hfuel : 3 ≤ fuel) :
    deliver_packages fuel scnA = some (70, scnA_final) ∧
    deliver_packages fuel scnB = some (0, scnB_final) ∧
    (get_package scnB_final.packages "K2").map (·.status) =
      some (.CantBeTransported "B") ∧
    (get_package (blacklist_packages_that_cant_be_transported scnC).packages
      "K2").map (·.status) = some (.DroppedAt "B" "") ∧
    deliver_packages fuel scnC = none := by
  refine ⟨?_, ?_, by rfl, by rfl, scnC_deliver_diverges fuel⟩
  · exact deliver_packages_mono 3 fuel scnA (70, scnA_final) hfuel (by rfl)
  · rw [deliver_packages,
      (by rfl : blacklist_packages_that_cant_be_transported scnB = scnB_final)]
    exact deliver_loop_of_no_undelivered fuel scnB_final 0 (by rfl)

/-- C1 witness: the three scenario facts at the concrete fuel bound 3. -/
theorem c1_reference_scenarios_witness :
    deliver_packages 3 scnA = some (70, scnA_final) ∧
    deliver_packages 3 scnB = some (0, scnB_final) ∧
    (get_package scnB_final.packages "K2").map (·.status) =
      some (.CantBeTransported "B") ∧
    (get_package (blacklist_packages_that_cant_be_transported scnC).packages
      "K2").map (·.status) = some (.DroppedAt "B" "") ∧
    deliver_packages 3 scnC = none :=
  c1_reference_scenarios 3 (by decide)

/-! ## Claim C2 -/

/-- C2: the dispatch pass does *not* survive a package whose origin is
disconnected from its destination.  In `disconnectedWorld` (stations A and B
with no edge, package K waiting at A destined for B, train T stopped at A)
the route enumeration does yield the empty path, but
`deliver_packages_in_node` then evaluates `highest_routes[1]` on that empty
anchor route — an out-of-bounds index (embedded as `none`) — so every
`deliver_packages` run fails instead of treating the package as one it cannot
currently help. -/
theorem c2_disconnected_panics :
    get_least_time_path_to_move_from_point_a_to_point_b disconnectedWorld
      "A" "B" = some [] ∧
    deliver_packages_in_node disconnectedWorld "A" 0 = none ∧
    ∀ fuel, deliver_packages fuel disconnectedWorld = none := by
  refine ⟨by rfl, by rfl, ?_⟩
  intro fuel
  rw [deliver_packages,
    (by rfl : blacklist_packages_that_cant_be_transported disconnectedWorld =
      disconnectedWorld)]
  cases fuel with
  | zero => exact deliver_loop_zero_of_undelivered (by rfl) 0
  | succ f =>
      refine deliver_loop_succ_of_step_none (by rfl) f 0 ?_
      apply deliver_step_of_in_nodes_none
      apply deliver_packages_in_nodes_of_nodes_loop_none
      show nodes_loop (f + 1) ["A", "B"] 0 disconnectedWorld = none
      exact nodes_loop_cons_none (node_loop_of_none (by rfl) f)

/-! ## Claim C3 -/

/-- C3: `deliver_packages` can fail to terminate even when every package fits
some train and every package's origin is connected to its destination.  In
`livelockWorld` (edge A-B, package K of weight 5 at A, trains T1 of capacity
1 at B and T2 of capacity 10 at A) both hypotheses hold, yet the per-station
loop at A selects `trains[0]` (T1, at B, too small) through the
filtered-index confusion of `find_largest_capacity_train_in_node`,
re-dispatches it B-ward forever, and never returns: every fuel bound yields
`none`. -/
theorem c3_termination_fails :
    (∀ p ∈ livelockWorld.packages, ∃ t ∈ livelockWorld.trains,
      p.weight ≤ t.max_capacity) ∧
    get_least_time_path_to_move_from_point_a_to_point_b livelockWorld
      "A" "B" = some ["A", "B"] ∧
    deliver_packages_in_node livelockStuck "A" 0 =
      some (.NotAllPackageLoaded, livelockStuck) ∧
    ∀ fuel, deliver_packages fuel livelockWorld = none := by
  refine ⟨by decide, by rfl, by rfl, ?_⟩
  intro fuel
  rw [deliver_packages,
    (by rfl : blacklist_packages_that_cant_be_transported livelockWorld =
      livelockWorld)]
  cases fuel with
  | zero => exact deliver_loop_zero_of_undelivered (by rfl) 0
  | succ f =>
      refine deliver_loop_succ_of_step_none (by rfl) f 0 ?_
      apply deliver_step_of_in_nodes_none
      apply deliver_packages_in_nodes_of_nodes_loop_none
      show nodes_loop (f + 1) ["A", "B"] 0 livelockWorld = none
      refine nodes_loop_cons_none ?_
      rw [node_loop_cont (by rfl :
        deliver_packages_in_node livelockWorld "A" 0 =
          some (.NotAllPackageLoaded, livelockStuck)) f]
      exact node_loop_fix (by rfl) f

/-! ## Claim C9 -/

/-- C9 counterexample: adding package K with origin = destination = A creates
it in status `Delivered ""` — not `Completed` — and it does appear in the
delivered-packages report for the default (empty-string) train id. -/
theorem c9_counterexample :
    (add_package oneNodeWorld "K" 5 "A" "A").2.packages =
      [⟨"K", 5, "A", .Delivered ""⟩] ∧
    PackageStatus.Delivered "" ≠ .Completed ∧
    list_package_names_delivered
      (add_package oneNodeWorld "K" 5 "A" "A").2.packages "" = ["K"] :=
  ⟨by rfl, by decide, by rfl⟩

/-- C9 (amended): a package added with origin equal to destination is created
immediately in status `Delivered` with the default (empty-string) train id —
not `Completed` — so it is not outstanding, and it appears in a per-train
delivered report only for a train whose id is the empty string. -/
theorem c9_same_origin_destination (sys : TFS) (name : String) (weight : Nat)
    (origin : String) (pos : Nat)
    (h1 : findNodeIdx sys origin = some pos)
    (h2 : findPackageIdx sys.packages name = none) :
    (add_package sys name weight origin origin).2.packages =
      sys.packages ++
        [⟨name, weight, (sys.nodes.getD pos default).id, .Delivered ""⟩] ∧
    (∀ train_id, train_id ≠ "" →
      list_package_names_delivered
        (add_package sys name weight origin origin).2.packages train_id =
      list_package_names_delivered sys.packages train_id) ∧
    have_undelivered_packages
        (add_package sys name weight origin origin).2.packages =
      have_undelivered_packages sys.packages := by
  have hpkg : (add_package sys name weight origin origin).2.packages =
      sys.packages ++
        [⟨name, weight, (sys.nodes.getD pos default).id, .Delivered ""⟩] := by
    simp [add_package, h1, h2, Package.make]
  refine ⟨hpkg, ?_, ?_⟩
  · intro train_id hne
    rw [hpkg]
    simp [list_package_names_delivered, List.filter_append,
      Ne.symm hne]
  · rw [hpkg]
    simp [have_undelivered_packages, List.any_append]

/-- C9 witness: the amended description instantiated on the one-station
world. -/
theorem c9_same_origin_destination_witness :
    (add_package oneNodeWorld "K" 5 "A" "A").2.packages =
      oneNodeWorld.packages ++
        [⟨"K", 5, (oneNodeWorld.nodes.getD 0 default).id, .Delivered ""⟩] :=
  (c9_same_origin_destination oneNodeWorld "K" 5 "A" 0 (by rfl) (by rfl)).1

/-! ## Claim C10 -/

/-- C10: `add_edge` is not atomic on failure: when the edge id is fresh at
`node_1` but already present at `node_2`, the push onto `node_1`'s adjacency
list happens first, then the duplicate check at `node_2` fails, so the caller
gets `AddEdgeError` while `node_1` keeps the one-directional edge (the final
state differs from the input state). -/
theorem c10_add_edge_not_atomic (sys : TFS) (name node_1 node_2 : String)
    (travel_time : Nat) (p1 p2 : Nat) (n1 n2 : Node)
    (h1 : findNodeIdx sys node_1 = some p1)
    (h2 : findNodeIdx sys node_2 = some p2)
    (hne : p1 ≠ p2)
    (hg1 : sys.nodes.get? p1 = some n1)
    (hg2 : sys.nodes.get? p2 = some n2)
    (hfresh : n1.edges.find? (fun e => e.id == name) = none)
    (hdup : (n2.edges.find? (fun e => e.id == name)).isSome = true) :
    add_edge sys name node_1 node_2 travel_time =
      (some .AddEdgeError,
       { sys with nodes := sys.nodes.set p1 ({ n1 with edges := n1.edges ++ [⟨name, node_2, travel_time⟩] }) }) ∧
    { n1 with edges := n1.edges ++ [⟨name, node_2, travel_time⟩] } ≠ n1 := by
  have hd1 : sys.nodes.getD p1 default = n1 := by
    simp [List.getD_eq_getElem?_getD, ← List.get?_eq_getElem?, hg1]
  have hd2 : (sys.nodes.set p1
      ({ n1 with edges := n1.edges ++ [⟨name, node_2, travel_time⟩] })).getD p2
      default = n2 := by
    simp [List.getD_eq_getElem?_getD, List.getElem?_set_ne hne,
      ← List.get?_eq_getElem?, hg2]
  constructor
  · simp only [add_edge, h1, h2, if_neg hne, hd1, Node.add_edge, hfresh,
      Option.isSome_none, Bool.false_eq_true, if_false, hd2, hdup, if_true]
  · intro h
    have := congrArg (fun n => n.edges.length) h
    simp at this

/-- C10 witness: reusing edge id E1 (already joining A-B) for C-B leaves C
with a one-directional edge to B while the call reports `AddEdgeError`. -/
theorem c10_add_edge_not_atomic_witness :
    add_edge halfEdgeWorld "E1" "C" "B" 10 =
      (some .AddEdgeError,
       { halfEdgeWorld with nodes := halfEdgeWorld.nodes.set 2 ({ Node.mk "C" [] with edges := [] ++ [⟨"E1", "B", 10⟩] }) }) :=
  (c10_add_edge_not_atomic halfEdgeWorld "E1" "C" "B" 10 2 1
    ⟨"C", []⟩ ⟨"B", [⟨"E1", "A", 30⟩]⟩ (by rfl) (by rfl) (by decide)
    (by rfl) (by rfl) (by rfl) (by rfl)).1

/-! ## Claim C6 -/

/-- The scan loop never loses a candidate once it has one. -/
theorem find_largest_loop_some (allTrains : List Train) :
    ∀ (l : List Train) (index b : Nat),
      (find_largest_loop allTrains l index (some b)).isSome = true := by
  intro l
  induction l with
  | nil => intro index b; rfl
  | cons t ts ih =>
      intro index b
      rw [find_largest_loop]
      by_cases h : (allTrains.getD b default).max_capacity < t.max_capacity
      · rw [if_pos h]; exact ih (index + 1) index
      · rw [if_neg h]; exact ih (index + 1) b

/-- The scan loop, when every scanned element sits in the full list at the
scan index, computes the spec's first-max fold. -/
theorem find_largest_loop_aligned (allTrains : List Train) :
    ∀ (rest : List Train) (index b : Nat) (cur : Train),
      allTrains.getD b default = cur →
      (∀ j t, rest.get? j = some t → allTrains.getD (index + j) default = t) →
      ∃ b', find_largest_loop allTrains rest index (some b) = some b' ∧
        allTrains.getD b' default = rest.foldl
          (fun best u => if best.max_capacity < u.max_capacity then u else best)
          cur := by
  intro rest
  induction rest with
  | nil =>
      intro index b cur hb _
      exact ⟨b, rfl, by simpa using hb⟩
  | cons t ts ih =>
      intro index b cur hb halign
      have ht : allTrains.getD index default = t := by
        have := halign 0 t (by rfl)
        simpa using this
      have halign' : ∀ j u, ts.get? j = some u →
          allTrains.getD (index + 1 + j) default = u := by
        intro j u hj
        have := halign (j + 1) u (by simpa using hj)
        simpa [Nat.add_assoc, Nat.add_comm 1 j] using this
      rw [find_largest_loop, hb]
      by_cases h : cur.max_capacity < t.max_capacity
      · rw [if_pos h]
        have := ih (index + 1) index t ht halign'
        simpa [List.foldl_cons, if_pos h] using this
      · rw [if_neg h]
        have := ih (index + 1) b cur hb halign'
        simpa [List.foldl_cons, if_neg h] using this

/-- C6 counterexample: with T0 (capacity 100) registered first but stopped at
A, and T1, T2 stopped at B, the scan for B returns T0 — a train that is not
stopped at B at all (the claim requires a maximal-capacity train stopped
there). -/
theorem c6_counterexample :
    find_largest_capacity_train_in_node confusedTrains "B" = some "T0" ∧
    ∀ t ∈ list_trains_stopped_at_node confusedTrains "B", t.id ≠ "T0" := by
  constructor
  · rfl
  · decide

/-- C6 (amended): the scan resolves its running index against the full
registration list instead of the filtered stopped list.  It still returns
`none` exactly when no train is stopped at the station; and whenever the
stopped trains happen to form an initial prefix of the registration list
(e.g. when all trains are stopped there), the two lists agree position-wise
and it returns the first stopped train of maximal capacity, as the spec
words it; in general the returned id can belong to a train not stopped at
the station (see the counterexample). -/
theorem c6_find_largest_characterization (trains : List Train)
    (node_id : String)
    (hpre : list_trains_stopped_at_node trains node_id =
      trains.take (list_trains_stopped_at_node trains node_id).length) :
    (find_largest_capacity_train_in_node trains node_id = none ↔
      list_trains_stopped_at_node trains node_id = []) ∧
    find_largest_capacity_train_in_node trains node_id =
      (spec_first_largest (list_trains_stopped_at_node trains node_id)).map
        (·.id) := by
  constructor
  · rw [find_largest_capacity_train_in_node]
    cases hl : list_trains_stopped_at_node trains node_id with
    | nil => simp [find_largest_loop]
    | cons t ts =>
        simp only [find_largest_loop]
        have hsome := find_largest_loop_some trains ts (0 + 1) 0
        constructor
        · intro h
          exfalso
          cases hfl : find_largest_loop trains ts (0 + 1) (some 0) with
          | none => rw [hfl] at hsome; simp at hsome
          | some b => rw [hfl] at h; simp at h
        · intro h; cases h
  · rw [find_largest_capacity_train_in_node]
    cases hl : list_trains_stopped_at_node trains node_id with
    | nil => rfl
    | cons t ts =>
        rw [hl] at hpre
        have hget : ∀ j u, (t :: ts).get? j = some u →
            trains.getD j default = u := by
          intro j u hj
          have hjlt : j < (t :: ts).length := by
            by_contra hcon
            rw [List.get?_eq_none.2 (by omega)] at hj
            cases hj
          have hj' : (t :: ts)[j]? = some u := by
            rw [← List.get?_eq_getElem?]; exact hj
          have htake := List.getElem?_take_of_lt (l := trains)
            (n := (t :: ts).length) (m := j) hjlt
          rw [← hpre] at htake
          have hg : trains[j]? = some u := by rw [← htake]; exact hj'
          simp [List.getD_eq_getElem?_getD, hg]
        have ht0 : trains.getD 0 default = t := hget 0 t (by rfl)
        have halign : ∀ j u, ts.get? j = some u →
            trains.getD (1 + j) default = u := by
          intro j u hj
          have := hget (j + 1) u (by simpa using hj)
          simpa [Nat.add_comm 1 j] using this
        simp only [find_largest_loop]
        obtain ⟨b', hb', hval⟩ :=
          find_largest_loop_aligned trains ts (0 + 1) 0 t ht0
            (by simpa using halign)
        rw [hb', spec_first_largest, Option.map_some', Option.map_some', hval]

/-- C6 witness: when every train is stopped at the queried station the
prefix condition holds, and the scan returns the first maximal-capacity
train (capacity 7 beats 5; the first of the two 7s wins). -/
theorem c6_find_largest_witness :
    (find_largest_capacity_train_in_node
        [⟨"U1", 5, .StoppedAt "X", 0⟩, ⟨"U2", 7, .StoppedAt "X", 0⟩,
         ⟨"U3", 7, .StoppedAt "X", 0⟩] "X" = none ↔
      list_trains_stopped_at_node
        [⟨"U1", 5, .StoppedAt "X", 0⟩, ⟨"U2", 7, .StoppedAt "X", 0⟩,
         ⟨"U3", 7, .StoppedAt "X", 0⟩] "X" = []) ∧
    find_largest_capacity_train_in_node
        [⟨"U1", 5, .StoppedAt "X", 0⟩, ⟨"U2", 7, .StoppedAt "X", 0⟩,
         ⟨"U3", 7, .StoppedAt "X", 0⟩] "X" =
      (spec_first_largest (list_trains_stopped_at_node
        [⟨"U1", 5, .StoppedAt "X", 0⟩, ⟨"U2", 7, .StoppedAt "X", 0⟩,
         ⟨"U3", 7, .StoppedAt "X", 0⟩] "X")).map (·.id) :=
  c6_find_largest_characterization
    [⟨"U1", 5, .StoppedAt "X", 0⟩, ⟨"U2", 7, .StoppedAt "X", 0⟩,
     ⟨"U3", 7, .StoppedAt "X", 0⟩] "X" (by rfl)

/-! ## Claim C8 -/

/-- C8 counterexample: in `thawableWorld` nothing is awaiting pickup or in
transit (`have_undelivered_packages` is `false`), yet `deliver_packages`
thaws the frozen K (train T now fits it), delivers it, and returns 60
minutes with a changed state — not 0 with the state unchanged. -/
theorem c8_counterexample :
    have_undelivered_packages thawableWorld.packages = false ∧
    (deliver_packages 2 thawableWorld).map (·.1) = some 60 := by
  exact ⟨by rfl, by rfl⟩

/-- C8 (amended): when nothing is awaiting pickup or in transit *and* every
frozen (`CantBeTransported`) package still exceeds every train's capacity —
so the pre-run thaw pass cannot fire — `deliver_packages` returns 0 minutes
and the entire state unchanged, for every fuel bound. -/
theorem c8_idempotent_at_fixpoint (fuel : Nat) (sys : TFS)
    (h1 : have_undelivered_packages sys.packages = false)
    (h2 : ∀ p ∈ sys.packages,
      (match p.status with | PackageStatus.CantBeTransported _ => true
                           | _ => false) = true →
      can_pacakge_be_transported_by_any_trains sys.trains p = false) :
    deliver_packages fuel sys = some (0, sys) := by
  have hnot : ∀ p ∈ sys.packages,
      (match p.status with | .DroppedAt _ _ => true | _ => false) = false ∧
      (match p.status with | .LoadedTo _ => true | _ => false) = false := by
    intro p hp
    have := (List.any_eq_false.1 h1) p hp
    cases hs : p.status <;> simp [hs] at this ⊢
  have hbl : blacklist_packages_that_cant_be_transported sys = sys := by
    rw [blacklist_packages_that_cant_be_transported]
    have hm1 : sys.packages.map (fun p =>
        if (match p.status with | .DroppedAt _ _ => true | _ => false) &&
            !can_pacakge_be_transported_by_any_trains sys.trains p then
          p.set_to_cant_be_transported
        else p) = sys.packages := by
      rw [List.map_congr_left (g := id), List.map_id]
      intro p hp
      rw [(hnot p hp).1]
      simp
    rw [hm1]
    have hm2 : sys.packages.map (fun p =>
        if (match p.status with | .CantBeTransported _ => true | _ => false) &&
            can_pacakge_be_transported_by_any_trains sys.trains p then
          p.drop_to_origin
        else p) = sys.packages := by
      rw [List.map_congr_left (g := id), List.map_id]
      intro p hp
      cases hb : (match p.status with | PackageStatus.CantBeTransported _ => true
                                      | _ => false) with
      | false => simp [hb]
      | true => rw [h2 p hp hb]; simp [hb]
    rw [hm2]
  rw [deliver_packages, hbl]
  exact deliver_loop_of_no_undelivered fuel sys 0 h1

/-- C8 witness: `frozenWorld` (frozen K, no trains) is a true fixpoint. -/
theorem c8_idempotent_at_fixpoint_witness :
    deliver_packages 0 frozenWorld = some (0, frozenWorld) :=
  c8_idempotent_at_fixpoint 0 frozenWorld (by rfl) (by decide)

/-! ## Claim C4: the load-within-capacity invariant -/

theorem load_package_within (t : Train) (p : Package)
    (h : t.load_size ≤ t.max_capacity) :
    (t.load_package p).1.load_size ≤ (t.load_package p).1.max_capacity := by
  rw [Train.load_package]
  by_cases hc : p.weight ≤ t.max_capacity - t.load_size
  · rw [if_pos hc]; simp; omega
  · rw [if_neg hc]; exact h

theorem unload_package_within (t : Train) (p : Package) (node : String)
    (h : t.load_size ≤ t.max_capacity) :
    (t.unload_package p node).1.load_size ≤
      (t.unload_package p node).1.max_capacity := by
  rw [Train.unload_package]
  simp
  omega

theorem set_within {trains : List Train} {pos : Nat} {t' : Train}
    (hinv : TrainsWithinCapacity trains)
    (ht' : t'.load_size ≤ t'.max_capacity) :
    TrainsWithinCapacity (trains.set pos t') := by
  intro u hu
  rcases List.mem_or_eq_of_mem_set hu with h | rfl
  · exact hinv u h
  · exact ht'

theorem move_to_node_within {trains trains' : List Train}
    {train_id origin destination : String} {travel_time : Nat}
    (h : move_to_node trains train_id origin destination travel_time =
      some trains')
    (hinv : TrainsWithinCapacity trains) : TrainsWithinCapacity trains' := by
  rw [move_to_node] at h
  cases hf : findTrainIdx trains train_id with
  | none => simp only [hf] at h; cases h
  | some pos =>
      simp only [hf] at h
      cases hg : trains.get? pos with
      | none => simp only [hg] at h; cases h
      | some tr =>
          simp only [hg] at h
          cases h
          exact set_within hinv (hinv tr (List.get?_mem hg))

theorem handler_load_package_within {trains trains' : List Train}
    {train_id : String} {p p' : Package}
    (h : handler_load_package trains train_id p = some (trains', p'))
    (hinv : TrainsWithinCapacity trains) : TrainsWithinCapacity trains' := by
  rw [handler_load_package] at h
  cases hf : findTrainIdx trains train_id with
  | none => simp only [hf] at h; cases h
  | some pos =>
      simp only [hf] at h
      cases hg : trains.get? pos with
      | none => simp only [hg] at h; cases h
      | some tr =>
          simp only [hg] at h
          cases h
          exact set_within hinv
            (load_package_within tr p (hinv tr (List.get?_mem hg)))

theorem load_packages_loop_within :
    ∀ (l : List String) (trains : List Train) (packages : List Package)
      (train_id : String) (trains' : List Train) (packages' : List Package),
      load_packages_loop trains packages train_id l =
        some (trains', packages') →
      TrainsWithinCapacity trains → TrainsWithinCapacity trains' := by
  intro l
  induction l with
  | nil =>
      intro trains packages train_id trains' packages' h hinv
      rw [load_packages_loop] at h
      cases h
      exact hinv
  | cons package_id rest ih =>
      intro trains packages train_id trains' packages' h hinv
      rw [load_packages_loop] at h
      cases hf : findPackageIdx packages package_id with
      | none => simp only [hf] at h; cases h
      | some pos =>
          simp only [hf] at h
          cases hg : packages.get? pos with
          | none => simp only [hg] at h; cases h
          | some p =>
              simp only [hg] at h
              cases hl : handler_load_package trains train_id p with
              | none => simp only [hl] at h; cases h
              | some r =>
                  obtain ⟨trains1, p1⟩ := r
                  simp only [hl] at h
                  exact ih _ _ _ _ _ h
                    (handler_load_package_within hl hinv)

theorem time_elapsed_within {trains : List Train} {duration : Nat}
    (hinv : TrainsWithinCapacity trains) :
    TrainsWithinCapacity (time_elapsed trains duration) := by
  intro u hu
  rw [time_elapsed] at hu
  obtain ⟨t, ht, rfl⟩ := List.mem_map.1 hu
  have hle := hinv t ht
  cases hs : t.status with
  | NotAvailable => simp only [hs]; exact hle
  | StoppedAt n => simp only [hs]; exact hle
  | DeliveringTo o d tt =>
      simp only [hs]
      by_cases hz : tt - duration = 0
      · simp only [if_pos hz, Train.stopped]; exact hle
      · simp only [if_neg hz, Train.move_to]; exact hle

theorem unload_packages_of_train_within :
    ∀ (packages : List Package) (trains : List Train) (train_id : String)
      (trains' : List Train) (packages' : List Package),
      unload_packages_of_train trains train_id packages =
        some (trains', packages') →
      TrainsWithinCapacity trains → TrainsWithinCapacity trains' := by
  intro packages
  induction packages with
  | nil =>
      intro trains train_id trains' packages' h hinv
      rw [unload_packages_of_train] at h
      cases h
      exact hinv
  | cons p rest ih =>
      intro trains train_id trains' packages' h hinv
      rw [unload_packages_of_train] at h
      by_cases hl : p.is_package_loaded_in_train train_id
      · rw [if_pos hl] at h
        cases hf : findTrainIdx trains train_id with
        | none => simp only [hf] at h; cases h
        | some pos =>
            simp only [hf] at h
            cases hg : trains.get? pos with
            | none => simp only [hg] at h; cases h
            | some tr =>
                simp only [hg] at h
                cases hloc : tr.get_location with
                | none => simp only [hloc] at h; cases h
                | some node_id =>
                    simp only [hloc] at h
                    cases hrec : unload_packages_of_train
                        (trains.set pos (tr.unload_package p node_id).1)
                        train_id rest with
                    | none => simp only [hrec] at h; cases h
                    | some r =>
                        obtain ⟨trains1, rest1⟩ := r
                        simp only [hrec] at h
                        obtain ⟨rfl, rfl⟩ := h
                        exact ih _ _ _ _ hrec
                          (set_within hinv (unload_package_within tr p node_id
                            (hinv tr (List.get?_mem hg))))
      · rw [if_neg hl] at h
        cases hrec : unload_packages_of_train trains train_id rest with
        | none => simp only [hrec] at h; cases h
        | some r =>
            obtain ⟨trains1, rest1⟩ := r
            simp only [hrec] at h
            obtain ⟨rfl, rfl⟩ := h
            exact ih _ _ _ _ hrec hinv

theorem unload_stopped_loop_within :
    ∀ (ids : List String) (trains : List Train) (packages : List Package)
      (trains' : List Train) (packages' : List Package),
      unload_stopped_loop ids trains packages = some (trains', packages') →
      TrainsWithinCapacity trains → TrainsWithinCapacity trains' := by
  intro ids
  induction ids with
  | nil =>
      intro trains packages trains' packages' h hinv
      rw [unload_stopped_loop] at h
      cases h
      exact hinv
  | cons train_id rest ih =>
      intro trains packages trains' packages' h hinv
      rw [unload_stopped_loop] at h
      cases hu : unload_packages_of_train trains train_id packages with
      | none => simp only [hu] at h; cases h
      | some r =>
          obtain ⟨trains1, packages1⟩ := r
          simp only [hu] at h
          exact ih _ _ _ _ h
            (unload_packages_of_train_within _ _ _ _ _ hu hinv)

theorem train_arrived_within {sys : TFS} {t : Nat} {sys' : TFS}
    (h : train_arrived sys = some (t, sys'))
    (hinv : TrainsWithinCapacity sys.trains) :
    TrainsWithinCapacity sys'.trains := by
  rw [train_arrived] at h
  cases hu : unload_packages_in_trains_that_stopped
      (time_elapsed sys.trains
        ((get_moving_train_lowest_travel_time sys.trains).getD 0))
      sys.packages with
  | none => simp only [hu] at h; cases h
  | some r =>
      obtain ⟨trains2, packages2⟩ := r
      simp only [hu] at h
      obtain ⟨rfl, rfl⟩ := h
      exact unload_stopped_loop_within _ _ _ _ _ hu
        (time_elapsed_within hinv)

theorem reroute_packages_loop_within :
    ∀ (l : List String) (sys : TFS) (biggest_train node_id : String)
      (diff : List String) (sys' : TFS),
      reroute_packages_loop sys biggest_train node_id diff l =
        some (some sys') →
      TrainsWithinCapacity sys.trains → TrainsWithinCapacity sys'.trains := by
  intro l
  induction l with
  | nil =>
      intro sys b n diff sys' h hinv
      rw [reroute_packages_loop] at h
      simp at h
  | cons pid rest ih =>
      intro sys b n diff sys' h hinv
      rw [reroute_packages_loop] at h
      cases hgt : get_train sys.trains b with
      | none => simp only [hgt] at h; cases h
      | some train =>
          simp only [hgt] at h
          cases hgp : get_package sys.packages pid with
          | none => simp only [hgp] at h; cases h
          | some pkg =>
              simp only [hgp] at h
              by_cases hacc : train.can_accomodate_package pkg = true
              · rw [if_pos hacc] at h
                cases hd0 : diff.get? 0 with
                | none => simp only [hd0] at h; cases h
                | some d0 =>
                    simp only [hd0] at h
                    cases htt : get_travel_time_from_routes sys [d0, n] with
                    | none => simp only [htt] at h; cases h
                    | some time =>
                        simp only [htt] at h
                        cases hmv : move_to_node sys.trains b n d0 time with
                        | none => simp only [hmv] at h; cases h
                        | some trains' =>
                            simp only [hmv] at h
                            obtain rfl : ({ sys with trains := trains' } :
                                TFS) = sys' := by
                              cases h; rfl
                            exact move_to_node_within hmv hinv
              · rw [if_neg hacc] at h
                exact ih _ _ _ _ _ h hinv

theorem reroute_diff_loop_within :
    ∀ (l : List String) (sys : TFS) (biggest_train node_id : String)
      (highest_routes diff : List String) (sys' : TFS),
      reroute_diff_loop sys biggest_train node_id highest_routes diff l =
        some (some sys') →
      TrainsWithinCapacity sys.trains → TrainsWithinCapacity sys'.trains := by
  intro l
  induction l with
  | nil =>
      intro sys b n hr diff sys' h hinv
      rw [reroute_diff_loop] at h
      simp at h
  | cons check rest ih =>
      intro sys b n hr diff sys' h hinv
      rw [reroute_diff_loop] at h
      cases ht1 : get_travel_time_from_routes sys [check, n] with
      | none => simp only [ht1] at h; cases h
      | some time1 =>
          simp only [ht1] at h
          cases ht2 : get_travel_time_from_routes sys hr with
          | none => simp only [ht2] at h; cases h
          | some time2 =>
              simp only [ht2] at h
              by_cases hlt : time1 < time2
              · rw [if_pos hlt] at h
                cases hrp : reroute_packages_loop sys b n diff
                    (list_undelivered_packages_at_node sys.packages check) with
                | none => simp only [hrp] at h; cases h
                | some r =>
                    cases r with
                    | none =>
                        simp only [hrp] at h
                        exact ih _ _ _ _ _ _ h hinv
                    | some sys1 =>
                        simp only [hrp] at h
                        obtain rfl : sys1 = sys' := by cases h; rfl
                        exact reroute_packages_loop_within _ _ _ _ _ _ hrp hinv
              · rw [if_neg hlt] at h
                exact ih _ _ _ _ _ _ h hinv

theorem reroute_routes_loop_within :
    ∀ (l : List (List String)) (sys : TFS) (biggest_train node_id : String)
      (highest_routes : List String) (sys' : TFS),
      reroute_routes_loop sys biggest_train node_id highest_routes l =
        some (some sys') →
      TrainsWithinCapacity sys.trains → TrainsWithinCapacity sys'.trains := by
  intro l
  induction l with
  | nil =>
      intro sys b n hr sys' h hinv
      rw [reroute_routes_loop] at h
      simp at h
  | cons routes rest ih =>
      intro sys b n hr sys' h hinv
      rw [reroute_routes_loop] at h
      cases hrd : reroute_diff_loop sys b n hr
          ((routes.filter
            (fun check_node_id => !hr.contains check_node_id)).reverse)
          ((routes.filter
            (fun check_node_id => !hr.contains check_node_id)).reverse) with
      | none => simp only [hrd] at h; cases h
      | some r =>
          cases r with
          | none =>
              simp only [hrd] at h
              exact ih _ _ _ _ _ h hinv
          | some sys1 =>
              simp only [hrd] at h
              obtain rfl : sys1 = sys' := by cases h; rfl
              exact reroute_diff_loop_within _ _ _ _ _ _ _ hrd hinv

theorem deliver_packages_in_node_within {sys : TFS} {node_id : String}
    {node_index : Nat} {res : DeliveryResult} {sys' : TFS}
    (h : deliver_packages_in_node sys node_id node_index = some (res, sys'))
    (hinv : TrainsWithinCapacity sys.trains) :
    TrainsWithinCapacity sys'.trains := by
  simp only [deliver_packages_in_node] at h
  by_cases hemp :
      (list_undelivered_packages_at_node sys.packages node_id).isEmpty = true
  · rw [if_pos hemp] at h
    cases h
    exact hinv
  · rw [if_neg hemp] at h
    cases hfl : find_largest_capacity_train_in_node sys.trains node_id with
    | none => simp only [hfl] at h; cases h; exact hinv
    | some biggest =>
        simp only [hfl] at h
        cases hhr : highest_routes_loop sys
            (list_undelivered_packages_at_node sys.packages node_id) [] with
        | none => simp only [hhr] at h; cases h
        | some highest =>
            simp only [hhr] at h
            cases hd : highest.get? 1 with
            | none => simp only [hd] at h; cases h
            | some destination =>
                simp only [hd] at h
                cases hfp : get_packages_passing_to_node sys destination
                    (list_undelivered_packages_at_node sys.packages
                      node_id) with
                | none => simp only [hfp] at h; cases h
                | some filtered =>
                    simp only [hfp] at h
                    cases har :
                        list_all_undelivered_packages_least_possible_routes
                          sys with
                    | none => simp only [har] at h; cases h
                    | some all_routes =>
                        simp only [har] at h
                        cases hrr : reroute_routes_loop sys biggest node_id
                            highest all_routes with
                        | none => simp only [hrr] at h; cases h
                        | some fired =>
                            cases fired with
                            | some sys1 =>
                                simp only [hrr] at h
                                obtain rfl : sys1 = sys' := by cases h; rfl
                                exact reroute_routes_loop_within _ _ _ _ _ _
                                  hrr hinv
                            | none =>
                                simp only [hrr] at h
                                cases hlp : load_packages_loop sys.trains
                                    sys.packages biggest filtered with
                                | none => simp only [hlp] at h; cases h
                                | some r1 =>
                                    obtain ⟨trains1, packages1⟩ := r1
                                    simp only [hlp] at h
                                    cases hfe : (sys.nodes.getD node_index
                                        default).find_edge_with_node
                                        destination with
                                    | none => simp only [hfe] at h; cases h
                                    | some edge =>
                                        simp only [hfe] at h
                                        cases hmv : move_to_node trains1
                                            biggest node_id destination
                                            edge.travel_time with
                                        | none =>
                                            simp only [hmv] at h; cases h
                                        | some trains2 =>
                                            simp only [hmv] at h
                                            have htr2 :
                                                TrainsWithinCapacity trains2 :=
                                              move_to_node_within hmv
                                                (load_packages_loop_within
                                                  _ _ _ _ _ _ hlp hinv)
                                            split at h <;>
                                              · cases h; exact htr2

theorem node_loop_within :
    ∀ (fuel : Nat) (sys : TFS) (node_id : String) (node_index : Nat)
      (sys' : TFS), node_loop sys node_id node_index fuel = some sys' →
      TrainsWithinCapacity sys.trains → TrainsWithinCapacity sys'.trains := by
  intro fuel
  induction fuel with
  | zero => intro sys node_id node_index sys' h hinv; cases h
  | succ f ih =>
      intro sys node_id node_index sys' h hinv
      rw [node_loop] at h
      cases hd : deliver_packages_in_node sys node_id node_index with
      | none => simp only [hd] at h; cases h
      | some p =>
          obtain ⟨res, sys1⟩ := p
          simp only [hd] at h
          cases res with
          | NotAllPackageLoaded =>
              exact ih _ _ _ _ h (deliver_packages_in_node_within hd hinv)
          | NoPackages =>
              cases h; exact deliver_packages_in_node_within hd hinv
          | NoTrains =>
              cases h; exact deliver_packages_in_node_within hd hinv
          | AllPackageLoaded =>
              cases h; exact deliver_packages_in_node_within hd hinv
          | TrainPicking =>
              cases h; exact deliver_packages_in_node_within hd hinv

theorem nodes_loop_within :
    ∀ (ids : List String) (fuel index : Nat) (sys sys' : TFS),
      nodes_loop fuel ids index sys = some sys' →
      TrainsWithinCapacity sys.trains → TrainsWithinCapacity sys'.trains := by
  intro ids
  induction ids with
  | nil =>
      intro fuel index sys sys' h hinv
      rw [nodes_loop] at h
      cases h
      exact hinv
  | cons node_id rest ih =>
      intro fuel index sys sys' h hinv
      rw [nodes_loop] at h
      cases hn : node_loop sys node_id index fuel with
      | none => simp only [hn] at h; cases h
      | some sys1 =>
          simp only [hn] at h
          exact ih _ _ _ _ h (node_loop_within _ _ _ _ _ hn hinv)

theorem hop_trains_loop_within :
    ∀ (l : List String) (sys : TFS) (p : Package) (r_prev r_i : String)
      (moved : Bool) (sys' : TFS),
      hop_trains_loop sys p r_prev r_i l = some (moved, sys') →
      TrainsWithinCapacity sys.trains → TrainsWithinCapacity sys'.trains := by
  intro l
  induction l with
  | nil =>
      intro sys p r_prev r_i moved sys' h hinv
      rw [hop_trains_loop] at h
      cases h
      exact hinv
  | cons train_id rest ih =>
      intro sys p r_prev r_i moved sys' h hinv
      rw [hop_trains_loop] at h
      cases htt : get_travel_time_from_routes sys [r_prev, r_i] with
      | none => simp only [htt] at h; cases h
      | some travel_time =>
          simp only [htt] at h
          cases hgt : get_train sys.trains train_id with
          | none => simp only [hgt] at h; cases h
          | some train =>
              simp only [hgt] at h
              by_cases hacc : train.can_accomodate_package p = true
              · rw [if_pos hacc] at h
                cases hmv : move_to_node sys.trains train_id r_i r_prev
                    travel_time with
                | none => simp only [hmv] at h; cases h
                | some trains' =>
                    simp only [hmv] at h
                    obtain ⟨rfl, rfl⟩ := h
                    exact move_to_node_within hmv hinv
              · rw [if_neg hacc] at h
                exact ih _ _ _ _ _ _ h hinv

theorem hop_loop_within :
    ∀ (l : List (String × String)) (sys : TFS) (p : Package) (moved : Bool)
      (moved' : Bool) (sys' : TFS),
      hop_loop p sys l moved = some (moved', sys') →
      TrainsWithinCapacity sys.trains → TrainsWithinCapacity sys'.trains := by
  intro l
  induction l with
  | nil =>
      intro sys p moved moved' sys' h hinv
      rw [hop_loop] at h
      cases h
      exact hinv
  | cons pr rest ih =>
      intro sys p moved moved' sys' h hinv
      obtain ⟨r_prev, r_i⟩ := pr
      rw [hop_loop] at h
      cases hht : hop_trains_loop sys p r_prev r_i
          (list_stopped_trains_at_node sys.trains r_i) with
      | none => simp only [hht] at h; cases h
      | some r =>
          obtain ⟨m, sys1⟩ := r
          simp only [hht] at h
          exact ih _ _ _ _ _ h (hop_trains_loop_within _ _ _ _ _ _ _ hht hinv)

theorem fallback_trains_loop_within :
    ∀ (l : List String) (sys : TFS) (p : Package) (sys' : TFS),
      fallback_trains_loop p sys l = some sys' →
      TrainsWithinCapacity sys.trains → TrainsWithinCapacity sys'.trains := by
  intro l
  induction l with
  | nil =>
      intro sys p sys' h hinv
      rw [fallback_trains_loop] at h
      cases h
      exact hinv
  | cons train_id rest ih =>
      intro sys p sys' h hinv
      rw [fallback_trains_loop] at h
      cases hgt : get_train sys.trains train_id with
      | none => simp only [hgt] at h; cases h
      | some train =>
          simp only [hgt] at h
          cases hloc : train.get_location with
          | none => simp only [hloc] at h; cases h
          | some train_location =>
              simp only [hloc] at h
              cases hrt : get_least_time_path_to_move_from_point_a_to_point_b
                  sys train_location p.destination with
              | none => simp only [hrt] at h; cases h
              | some routes =>
                  simp only [hrt] at h
                  cases hr1 : routes.get? 1 with
                  | none => simp only [hr1] at h; cases h
                  | some r1 =>
                      simp only [hr1] at h
                      cases htt : get_travel_time_from_routes sys
                          [train_location, r1] with
                      | none => simp only [htt] at h; cases h
                      | some time =>
                          simp only [htt] at h
                          by_cases hacc : train.can_accomodate_package p = true
                          · rw [if_pos hacc] at h
                            cases hmv : move_to_node sys.trains train_id
                                train_location r1 time with
                            | none => simp only [hmv] at h; cases h
                            | some trains' =>
                                simp only [hmv] at h
                                cases h
                                exact move_to_node_within hmv hinv
                          · rw [if_neg hacc] at h
                            exact ih _ _ _ h hinv

theorem dropped_packages_loop_within :
    ∀ (l : List String) (sys : TFS) (sys' : TFS),
      dropped_packages_loop sys l = some sys' →
      TrainsWithinCapacity sys.trains → TrainsWithinCapacity sys'.trains := by
  intro l
  induction l with
  | nil =>
      intro sys sys' h hinv
      rw [dropped_packages_loop] at h
      cases h
      exact hinv
  | cons package_id rest ih =>
      intro sys sys' h hinv
      rw [dropped_packages_loop] at h
      cases hgp : get_package sys.packages package_id with
      | none => simp only [hgp] at h; cases h
      | some p =>
          simp only [hgp] at h
          cases hrt : get_least_time_path_to_deliver_package sys p with
          | none => simp only [hrt] at h; cases h
          | some routes =>
              simp only [hrt] at h
              cases hhl : hop_loop p sys (routes.zip routes.tail) false with
              | none => simp only [hhl] at h; cases h
              | some r =>
                  obtain ⟨moved, sys1⟩ := r
                  simp only [hhl] at h
                  have hinv1 : TrainsWithinCapacity sys1.trains :=
                    hop_loop_within _ _ _ _ _ _ hhl hinv
                  by_cases hm : moved = true
                  · rw [if_pos hm] at h
                    exact ih _ _ h hinv1
                  · rw [if_neg hm] at h
                    cases hfb : fallback_trains_loop p sys1
                        (list_stopped_trains sys1.trains) with
                    | none => simp only [hfb] at h; cases h
                    | some sys2 =>
                        simp only [hfb] at h
                        exact ih _ _ h
                          (fallback_trains_loop_within _ _ _ _ hfb hinv1)

theorem deliver_packages_in_nodes_within {fuel : Nat} {sys sys' : TFS}
    (h : deliver_packages_in_nodes fuel sys = some sys')
    (hinv : TrainsWithinCapacity sys.trains) :
    TrainsWithinCapacity sys'.trains := by
  rw [deliver_packages_in_nodes] at h
  cases hn : nodes_loop fuel (sys.nodes.map (·.id)) 0 sys with
  | none => simp only [hn] at h; cases h
  | some sys1 =>
      simp only [hn] at h
      exact dropped_packages_loop_within _ _ _ h
        (nodes_loop_within _ _ _ _ _ hn hinv)

theorem deliver_step_within {fuel : Nat} {sys : TFS} {t : Nat} {sys' : TFS}
    (h : deliver_step fuel sys = some (t, sys'))
    (hinv : TrainsWithinCapacity sys.trains) :
    TrainsWithinCapacity sys'.trains := by
  rw [deliver_step] at h
  cases hn : deliver_packages_in_nodes fuel sys with
  | none => simp only [hn] at h; cases h
  | some sys1 =>
      simp only [hn] at h
      cases ha : train_arrived sys1 with
      | none => simp only [ha] at h; cases h
      | some r =>
          obtain ⟨t1, sys2⟩ := r
          simp only [ha] at h
          obtain ⟨rfl, rfl⟩ := h
          show TrainsWithinCapacity sys2.trains
          exact train_arrived_within ha
            (deliver_packages_in_nodes_within hn hinv)

theorem deliver_loop_within :
    ∀ (fuel : Nat) (sys : TFS) (total : Nat) (r : Nat × TFS),
      deliver_loop fuel sys total = some r →
      TrainsWithinCapacity sys.trains → TrainsWithinCapacity r.2.trains := by
  intro fuel
  induction fuel with
  | zero =>
      intro sys total r h hinv
      rw [deliver_loop] at h
      by_cases hu : have_undelivered_packages sys.packages = true
      · rw [if_pos (by simp [hu])] at h; cases h
      · rw [if_neg (by simp at hu ⊢; exact hu)] at h
        cases h
        exact hinv
  | succ f ih =>
      intro sys total r h hinv
      rw [deliver_loop] at h
      by_cases hu : have_undelivered_packages sys.packages = true
      · rw [if_pos (by simp [hu])] at h
        cases hs : deliver_step (f + 1) sys with
        | none => simp only [hs] at h; cases h
        | some p =>
            obtain ⟨t1, sys1⟩ := p
            simp only [hs] at h
            exact ih _ _ _ h (deliver_step_within hs hinv)
      · rw [if_neg (by simp at hu ⊢; exact hu)] at h
        cases h
        exact hinv

theorem deliver_packages_within {fuel : Nat} {sys : TFS} {r : Nat × TFS}
    (h : deliver_packages fuel sys = some r)
    (hinv : TrainsWithinCapacity sys.trains) :
    TrainsWithinCapacity r.2.trains := by
  rw [deliver_packages] at h
  exact deliver_loop_within _ _ _ _ h
    (by exact hinv :
      TrainsWithinCapacity
        (blacklist_packages_that_cant_be_transported sys).trains)

/-- C4: `load_size ≤ max_capacity` holds for every train at every observable
instant: it is preserved by each registration operation, by each outer step
of `deliver_packages`, and by `deliver_packages` itself; `load_package` adds
the package's weight exactly when it fits in the remaining capacity and is a
no-op otherwise, and `unload_package` subtracts the package's weight. -/
theorem c4_load_within_capacity (sys : TFS)
    (hinv : TrainsWithinCapacity sys.trains) :
    (∀ name, TrainsWithinCapacity (add_node sys name).2.trains) ∧
    (∀ name node_1 node_2 travel_time,
      TrainsWithinCapacity
        (add_edge sys name node_1 node_2 travel_time).2.trains) ∧
    (∀ name max_capacity location,
      TrainsWithinCapacity
        (add_train sys name max_capacity location).2.trains) ∧
    (∀ name weight origin destination,
      TrainsWithinCapacity
        (add_package sys name weight origin destination).2.trains) ∧
    (∀ fuel r, deliver_step fuel sys = some r →
      TrainsWithinCapacity r.2.trains) ∧
    (∀ fuel r, deliver_packages fuel sys = some r →
      TrainsWithinCapacity r.2.trains) ∧
    (∀ t : Train, ∀ p : Package, p.weight ≤ t.max_capacity - t.load_size →
      t.load_package p = ({ t with load_size := t.load_size + p.weight },
        { p with status := .LoadedTo t.id })) ∧
    (∀ t : Train, ∀ p : Package, ¬ p.weight ≤ t.max_capacity - t.load_size →
      t.load_package p = (t, p)) ∧
    (∀ t : Train, ∀ p : Package, ∀ node,
      (t.unload_package p node).1.load_size = t.load_size - p.weight) := by
  refine ⟨?_, ?_, ?_, ?_, ?_, ?_, ?_, ?_, ?_⟩
  · intro name
    rw [add_node]
    split <;> exact hinv
  · intro name node_1 node_2 travel_time
    rw [add_edge]
    repeat' split
    any_goals exact hinv
    all_goals
      dsimp only
      repeat' split
      all_goals exact hinv
  · intro name max_capacity location
    rw [add_train]
    split
    · exact hinv
    · split
      · exact hinv
      · intro t ht
        rcases List.mem_append.1 ht with hmem | hmem
        · exact hinv t hmem
        · simp at hmem
          subst hmem
          exact Nat.zero_le _
  · intro name weight origin destination
    rw [add_package]
    repeat' split
    all_goals exact hinv
  · intro fuel r h
    exact deliver_step_within h hinv
  · intro fuel r h
    exact deliver_packages_within h hinv
  · intro t p hfits
    rw [Train.load_package]
    simp only [if_pos hfits]
  · intro t p hfits
    rw [Train.load_package]
    simp only [if_neg hfits]
  · intro t p node
    rfl

/-- C4 witness: the invariant holds on the scenario-A world and on the final
state of its full delivery run. -/
theorem c4_load_within_capacity_witness :
    TrainsWithinCapacity scnA_final.trains :=
  (c4_load_within_capacity scnA (by decide)).2.2.2.2.2.1 3 (70, scnA_final)
    (by rfl)

/-! ## Properties of the route enumeration and selection (for C5 and C7) -/

theorem bool_eq_false {b : Bool} (h : ¬ b = true) : b = false := by
  cases b
  · rfl
  · exact absurd rfl h

theorem contains_true_iff {l : List String} {a : String} :
    l.contains a = true ↔ a ∈ l := by
  simp [List.contains]

theorem contains_false_iff {l : List String} {a : String} :
    l.contains a = false ↔ a ∉ l := by
  rw [← Bool.not_eq_true, not_iff_not]
  exact contains_true_iff

theorem nodup_append_single {l : List String} {a : String} (h : l.Nodup)
    (ha : a ∉ l) : (l ++ [a]).Nodup := by
  simp [List.nodup_append, h, ha]

/-- DFS invariant: routes returned by `get_all_possible_routes` extend the
incoming `routes` by at most the origin, stay duplicate-free, and every
newly pushed path extends `routes ++ [origin]` and is simple. -/
theorem get_all_possible_routes_paths (sys : TFS) :
    ∀ (fuel : Nat) (origin destination : String)
      (pp : List (List String)) (routes : List String)
      (pp' : List (List String)) (routes' : List String),
      get_all_possible_routes sys fuel origin destination pp routes =
        some (pp', routes') →
      routes.Nodup →
      (routes' = routes ∨ (origin ∉ routes ∧ routes' = routes ++ [origin])) ∧
      routes'.Nodup ∧
      (∀ p ∈ pp', p ∈ pp ∨
        ∃ suffix, p = routes ++ origin :: suffix ∧ p.Nodup) := by
  intro fuel
  induction fuel with
  | zero => intro o d pp routes pp' routes' h hnd; cases h
  | succ f ih =>
      have hloop : ∀ (edges : List Edge) (d : String)
          (pp : List (List String)) (routes : List String)
          (pp' : List (List String)),
          routes.Nodup → routes.contains d = false →
          get_all_possible_routes_loop d
            (fun o acc => get_all_possible_routes sys f o d acc routes)
            edges pp = some pp' →
          ∀ p ∈ pp', p ∈ pp ∨
            ∃ suffix, suffix ≠ [] ∧ p = routes ++ suffix ∧ p.Nodup := by
        intro edges
        induction edges with
        | nil =>
            intro d pp routes pp' hnd hcd h p hp
            rw [get_all_possible_routes_loop] at h
            cases h
            exact Or.inl hp
        | cons e es ihe =>
            intro d pp routes pp' hnd hcd h p hp
            rw [get_all_possible_routes_loop] at h
            cases hg : get_all_possible_routes sys f e.node d pp routes with
            | none => simp only [hg] at h; cases h
            | some r =>
                obtain ⟨pp1, path⟩ := r
                simp only [hg] at h
                obtain ⟨hret, hndpath, hmem1⟩ :=
                  ih e.node d pp routes pp1 path hg hnd
                by_cases hpc : path.contains d = true
                · rw [if_pos hpc] at h
                  rcases ihe d (pp1 ++ [path]) routes pp' hnd hcd h p hp with
                    hin | hnew
                  · rcases List.mem_append.1 hin with hin1 | hin1
                    · rcases hmem1 p hin1 with h1 | ⟨suf, rfl, hndp⟩
                      · exact Or.inl h1
                      · exact Or.inr ⟨e.node :: suf, by simp, rfl, hndp⟩
                    · have hpe : p = path := by simpa using hin1
                      subst hpe
                      rcases hret with rfl | ⟨hnm, rfl⟩
                      · rw [hcd] at hpc; cases hpc
                      · exact Or.inr ⟨[e.node], by simp, rfl, hndpath⟩
                  · exact Or.inr hnew
                · rw [if_neg hpc] at h
                  rcases ihe d pp1 routes pp' hnd hcd h p hp with hin | hnew
                  · rcases hmem1 p hin with h1 | ⟨suf, rfl, hndp⟩
                    · exact Or.inl h1
                    · exact Or.inr ⟨e.node :: suf, by simp, rfl, hndp⟩
                  · exact Or.inr hnew
      intro o d pp routes pp' routes' h hnd
      simp only [get_all_possible_routes] at h
      by_cases hco : routes.contains o = true
      · rw [if_pos hco] at h
        simp only [Option.some.injEq, Prod.mk.injEq] at h
        obtain ⟨rfl, rfl⟩ := h
        exact ⟨Or.inl rfl, hnd, fun p hp => Or.inl hp⟩
      · rw [if_neg hco] at h
        have hno : o ∉ routes := contains_false_iff.1 (bool_eq_false hco)
        have hnd' : (routes ++ [o]).Nodup := nodup_append_single hnd hno
        cases hfi : findNodeIdx sys o with
        | none => simp only [hfi] at h; cases h
        | some pos =>
            simp only [hfi] at h
            cases hed : (sys.nodes.getD pos default).edges with
            | nil =>
                simp only [hed] at h
                simp only [Option.some.injEq, Prod.mk.injEq] at h
                obtain ⟨rfl, rfl⟩ := h
                exact ⟨Or.inr ⟨hno, rfl⟩, hnd', fun p hp => Or.inl hp⟩
            | cons e es =>
                simp only [hed] at h
                by_cases hcd : (routes ++ [o]).contains d = true
                · rw [if_pos hcd] at h
                  simp only [Option.some.injEq, Prod.mk.injEq] at h
                  obtain ⟨rfl, rfl⟩ := h
                  refine ⟨Or.inr ⟨hno, rfl⟩, hnd', fun p hp => ?_⟩
                  rcases List.mem_append.1 hp with h1 | h1
                  · exact Or.inl h1
                  · have hpe : p = routes ++ [o] := by simpa using h1
                    subst hpe
                    exact Or.inr ⟨[], by simp, hnd'⟩
                · rw [if_neg hcd] at h
                  cases hlp : get_all_possible_routes_loop d
                      (fun o' acc =>
                        get_all_possible_routes sys f o' d acc (routes ++ [o]))
                      (e :: es) pp with
                  | none => simp only [hlp] at h; cases h
                  | some pp1 =>
                      simp only [hlp] at h
                      simp only [Option.some.injEq, Prod.mk.injEq] at h
                      obtain ⟨rfl, rfl⟩ := h
                      refine ⟨Or.inr ⟨hno, rfl⟩, hnd', fun p hp => ?_⟩
                      rcases hloop (e :: es) d pp (routes ++ [o]) pp1 hnd'
                          (bool_eq_false hcd) hlp p hp with
                        h1 | ⟨suf, hsne, hpe, hndp⟩
                      · exact Or.inl h1
                      · refine Or.inr ⟨suf, ?_, hndp⟩
                        rw [hpe]
                        simp

/-- Every path produced by the top-level enumeration starts at the origin
and is simple. -/
theorem possible_routes_paths {sys : TFS} {a b : String}
    {pp : List (List String)} (h : possible_routes sys a b = some pp) :
    ∀ p ∈ pp, (∃ suffix, p = a :: suffix) ∧ p.Nodup := by
  rw [possible_routes] at h
  cases hg : get_all_possible_routes sys (sys.nodes.length + 1) a b [] [] with
  | none => simp only [hg] at h; cases h
  | some r =>
      obtain ⟨pp1, routes1⟩ := r
      simp only [hg, Option.some.injEq] at h
      subst h
      intro p hp
      obtain ⟨-, -, hmem⟩ :=
        get_all_possible_routes_paths sys _ a b [] [] _ routes1 hg
          List.nodup_nil
      rcases hmem p hp with h1 | ⟨suffix, rfl, hndp⟩
      · cases h1
      · exact ⟨⟨suffix, rfl⟩, hndp⟩

/-- The selection loop returns the initial route or one of the scanned
paths. -/
theorem least_time_loop_mem (sys : TFS) :
    ∀ (paths : List (List String)) (least : Nat) (route : List String)
      (r : List String), least_time_loop sys paths least route = some r →
      r = route ∨ r ∈ paths := by
  intro paths
  induction paths with
  | nil =>
      intro least route r h
      rw [least_time_loop] at h
      cases h
      exact Or.inl rfl
  | cons p ps ih =>
      intro least route r h
      rw [least_time_loop] at h
      cases ht : get_travel_time_from_routes sys p with
      | none => simp only [ht] at h; cases h
      | some travel_time =>
          simp only [ht] at h
          by_cases hc : least = 0 ∨ travel_time < least
          · rw [if_pos hc] at h
            rcases ih _ _ _ h with rfl | hmem
            · exact Or.inr (by simp)
            · exact Or.inr (by simp [hmem])
          · rw [if_neg hc] at h
            rcases ih _ _ _ h with rfl | hmem
            · exact Or.inl rfl
            · exact Or.inr (by simp [hmem])

/-- A nonempty least-time result starts at the origin; the result is empty
exactly when it contains no station at all — so "contains the origin" and
"is nonempty" coincide for every successful least-time query. -/
theorem least_time_path_contains_iff {sys : TFS} {a b : String}
    {r : List String}
    (h : get_least_time_path_to_move_from_point_a_to_point_b sys a b =
      some r) : (r.contains a = true ↔ r ≠ []) := by
  rw [get_least_time_path_to_move_from_point_a_to_point_b] at h
  cases hpr : possible_routes sys a b with
  | none => simp only [hpr] at h; cases h
  | some paths =>
      simp only [hpr] at h
      rcases least_time_loop_mem sys paths 0 [] r h with rfl | hmem
      · simp
      · obtain ⟨⟨suffix, rfl⟩, -⟩ := possible_routes_paths hpr r hmem
        constructor
        · intro _
          simp
        · intro _
          simp [List.contains_cons]

/-- The selection loop with a positive current best: the result is the
first minimum, because with a positive best the `least == 0` re-trigger is
dead and only strict improvements replace the best. -/
theorem least_time_loop_first_min (sys : TFS) :
    ∀ (paths : List (List String)) (least : Nat) (route : List String),
      0 < least → get_travel_time_from_routes sys route = some least →
      (∀ p ∈ paths, ∃ t, get_travel_time_from_routes sys p = some t ∧ 0 < t) →
      ∃ r tr, least_time_loop sys paths least route = some r ∧
        get_travel_time_from_routes sys r = some tr ∧ 0 < tr ∧ tr ≤ least ∧
        (∀ p t, p ∈ paths → get_travel_time_from_routes sys p = some t →
          tr ≤ t) ∧
        (r = route ∨ (tr < least ∧ ∃ l1 l2, paths = l1 ++ r :: l2 ∧
          (∀ p t, p ∈ l1 → get_travel_time_from_routes sys p = some t →
            tr < t))) := by
  intro paths
  induction paths with
  | nil =>
      intro least route hpos hroute _
      exact ⟨route, least, by rw [least_time_loop], hroute, hpos, le_refl _,
        by simp, Or.inl rfl⟩
  | cons p ps ih =>
      intro least route hpos hroute hall
      obtain ⟨tp, htp, htppos⟩ := hall p (by simp)
      have hrest : ∀ q ∈ ps, ∃ t,
          get_travel_time_from_routes sys q = some t ∧ 0 < t :=
        fun q hq => hall q (by simp [hq])
      rw [least_time_loop]
      simp only [htp]
      by_cases hlt : tp < least
      · rw [if_pos (Or.inr hlt)]
        obtain ⟨r, tr, hloop, hrt, htrpos, hle, hmin, hfirst⟩ :=
          ih tp p htppos htp hrest
        refine ⟨r, tr, hloop, hrt, htrpos, by omega, ?_, ?_⟩
        · intro q t hq ht
          rcases (List.mem_cons).1 hq with rfl | hq'
          · rw [htp] at ht
            cases ht
            exact hle
          · exact hmin q t hq' ht
        · rcases hfirst with rfl | ⟨hstrict, l1, l2, rfl, hl1⟩
          · exact Or.inr ⟨by omega, [], ps, rfl, by simp⟩
          · refine Or.inr ⟨by omega, p :: l1, l2, rfl, ?_⟩
            intro q t hq ht
            rcases (List.mem_cons).1 hq with rfl | hq'
            · rw [htp] at ht
              cases ht
              omega
            · exact hl1 q t hq' ht
      · rw [if_neg (by push_neg; exact ⟨by omega, by omega⟩)]
        obtain ⟨r, tr, hloop, hrt, htrpos, hle, hmin, hfirst⟩ :=
          ih least route hpos hroute hrest
        refine ⟨r, tr, hloop, hrt, htrpos, hle, ?_, ?_⟩
        · intro q t hq ht
          rcases (List.mem_cons).1 hq with rfl | hq'
          · rw [htp] at ht
            cases ht
            omega
          · exact hmin q t hq' ht
        · rcases hfirst with rfl | ⟨hstrict, l1, l2, rfl, hl1⟩
          · exact Or.inl rfl
          · refine Or.inr ⟨hstrict, p :: l1, l2, rfl, ?_⟩
            intro q t hq ht
            rcases (List.mem_cons).1 hq with rfl | hq'
            · rw [htp] at ht
              cases ht
              omega
            · exact hl1 q t hq' ht

/-! ## Claim C5 -/

/-- C5 counterexample: with a zero-travel-time edge A-B and a two-hop detour
A-C-B of total time 2, the enumeration lists the zero-time path [A,B] first,
but the selection loop's `least == 0` clause re-fires after processing it
and replaces it by the strictly slower [A,C,B]: the returned path is not of
minimal summed travel time. -/
theorem c5_counterexample :
    possible_routes zeroEdgeWorld "A" "B" =
      some [["A", "B"], ["A", "B"], ["A", "C", "B"], ["A", "C", "B"]] ∧
    get_travel_time_from_routes zeroEdgeWorld ["A", "B"] = some 0 ∧
    get_travel_time_from_routes zeroEdgeWorld ["A", "C", "B"] = some 2 ∧
    get_least_time_path_to_move_from_point_a_to_point_b zeroEdgeWorld
      "A" "B" = some ["A", "C", "B"] :=
  ⟨by rfl, by rfl, by rfl, by rfl⟩

/-- C5 (amended): whenever at least one path is enumerated and every
enumerated path has strictly positive total travel time,
`get_least_time_path_to_move_from_point_a_to_point_b` returns a simple
(duplicate-free) enumerated path of minimal summed travel time, and among
the equally minimal enumerated paths it returns the first one in
enumeration (depth-first discovery) order.  (With a zero-total-time path the
`least == 0` re-trigger breaks minimality, see the counterexample.) -/
theorem c5_least_time_path_minimal (sys : TFS) (a b : String)
    (pp : List (List String))
    (hpp : possible_routes sys a b = some pp)
    (hne : pp ≠ [])
    (hpos : ∀ p ∈ pp, ∃ t,
      get_travel_time_from_routes sys p = some t ∧ 0 < t) :
    ∃ r tr, get_least_time_path_to_move_from_point_a_to_point_b sys a b =
        some r ∧
      r ∈ pp ∧ r.Nodup ∧
      get_travel_time_from_routes sys r = some tr ∧
      (∀ p t, p ∈ pp → get_travel_time_from_routes sys p = some t →
        tr ≤ t) ∧
      ∃ l1 l2, pp = l1 ++ r :: l2 ∧
        (∀ p t, p ∈ l1 → get_travel_time_from_routes sys p = some t →
          tr < t) := by
  cases pp with
  | nil => exact absurd rfl hne
  | cons p0 rest =>
      obtain ⟨t0, ht0, ht0pos⟩ := hpos p0 (by simp)
      have hrest : ∀ q ∈ rest, ∃ t,
          get_travel_time_from_routes sys q = some t ∧ 0 < t :=
        fun q hq => hpos q (by simp [hq])
      rw [get_least_time_path_to_move_from_point_a_to_point_b]
      simp only [hpp]
      rw [least_time_loop]
      simp only [ht0]
      rw [if_pos (Or.inl trivial)]
      obtain ⟨r, tr, hloop, hrt, htrpos, hle, hmin, hfirst⟩ :=
        least_time_loop_first_min sys rest t0 p0 ht0pos ht0 hrest
      have hrmem : r ∈ p0 :: rest := by
        rcases hfirst with rfl | ⟨-, l1, l2, rfl, -⟩
        · simp
        · simp
      refine ⟨r, tr, hloop, hrmem, ?_, hrt, ?_, ?_⟩
      · exact (possible_routes_paths hpp r hrmem).2
      · intro q t hq ht
        rcases (List.mem_cons).1 hq with rfl | hq'
        · rw [ht0] at ht
          cases ht
          exact hle
        · exact hmin q t hq' ht
      · rcases hfirst with rfl | ⟨hstrict, l1, l2, rfl, hl1⟩
        · exact ⟨[], rest, rfl, by simp⟩
        · refine ⟨p0 :: l1, l2, rfl, ?_⟩
          intro q t hq ht
          rcases (List.mem_cons).1 hq with rfl | hq'
          · rw [ht0] at ht
            cases ht
            omega
          · exact hl1 q t hq' ht

/-- C5 witness: on the scenario-A graph, the least-time query from A to C
returns the (twice enumerated) simple path [A,B,C] of total time 40. -/
theorem c5_least_time_path_minimal_witness :
    ∃ r tr, get_least_time_path_to_move_from_point_a_to_point_b scnA
        "A" "C" = some r ∧
      r ∈ [["A", "B", "C"], ["A", "B", "C"]] ∧ r.Nodup ∧
      get_travel_time_from_routes scnA r = some tr ∧
      (∀ p t, p ∈ [["A", "B", "C"], ["A", "B", "C"]] →
        get_travel_time_from_routes scnA p = some t → tr ≤ t) ∧
      ∃ l1 l2, ([["A", "B", "C"], ["A", "B", "C"]] :
          List (List String)) = l1 ++ r :: l2 ∧
        (∀ p t, p ∈ l1 → get_travel_time_from_routes scnA p = some t →
          tr < t) :=
  c5_least_time_path_minimal scnA "A" "C"
    [["A", "B", "C"], ["A", "B", "C"]] (by rfl) (by simp)
    (by
      intro p hp
      rcases (List.mem_cons).1 hp with rfl | hp'
      · exact ⟨40, by rfl, by decide⟩
      · rcases (List.mem_cons).1 hp' with rfl | hp''
        · exact ⟨40, by rfl, by decide⟩
        · cases hp'')

/-! ## Claim C7 -/

/-- C7 counterexample: stations A,B,D (A-B=30, A-D=10), packages K1 (A to B)
and K2 (A to D) waiting at A, train T at A.  The anchor next hop is B (the
train departs A toward B for 30 minutes), K2's least-time route [A,D] does
not pass through B — yet the commit loads K2. -/
theorem c7_counterexample :
    (deliver_packages_in_node sidePackageWorld "A" 0).map
      (fun r => (r.1, (get_package r.2.packages "K2").map (·.status),
        (get_train r.2.trains "T").map (·.status))) =
      some (.AllPackageLoaded, some (.LoadedTo "T"),
        some (.DeliveringTo "A" "B" 30)) ∧
    get_least_time_path_to_move_from_point_a_to_point_b sidePackageWorld
      "A" "D" = some ["A", "D"] ∧
    (["A", "D"] : List String).contains "B" = false :=
  ⟨by rfl, by rfl, by rfl⟩

/-- C7 (amended): the commit filter `get_packages_passing_to_node` keeps
exactly those listed packages whose destination is reachable *from the
anchor's chosen next hop* (the least-time path computed from the next hop
to the package's destination is nonempty) — not the packages whose own
least-time route passes through the next hop.  The check
`path.contains next_hop` is equivalent to `path ≠ []` because every
nonempty least-time path starts at its queried origin. -/
theorem c7_passing_filter (sys : TFS) (node_id : String) :
    ∀ (pkgs : List String) (filtered : List String),
      get_packages_passing_to_node sys node_id pkgs = some filtered →
      ∀ pid, pid ∈ filtered ↔ (pid ∈ pkgs ∧
        ∃ p r, get_package sys.packages pid = some p ∧
          get_least_time_path_to_move_from_point_a_to_point_b sys node_id
            p.destination = some r ∧ r ≠ []) := by
  intro pkgs
  induction pkgs with
  | nil =>
      intro filtered h pid
      rw [get_packages_passing_to_node] at h
      cases h
      simp
  | cons pid0 rest ih =>
      intro filtered h pid
      rw [get_packages_passing_to_node] at h
      cases hgp : get_package sys.packages pid0 with
      | none => simp only [hgp] at h; cases h
      | some p0 =>
          simp only [hgp] at h
          cases hpath : get_least_time_path_to_move_from_point_a_to_point_b
              sys node_id p0.destination with
          | none => simp only [hpath] at h; cases h
          | some path0 =>
              simp only [hpath] at h
              cases hrec : get_packages_passing_to_node sys node_id rest with
              | none => simp only [hrec] at h; cases h
              | some filtered0 =>
                  simp only [hrec] at h
                  have hiff := least_time_path_contains_iff hpath
                  by_cases hc : path0.contains node_id = true
                  · rw [if_pos hc] at h
                    simp only [Option.some.injEq] at h
                    subst h
                    constructor
                    · intro hmem
                      rcases (List.mem_cons).1 hmem with rfl | hmem'
                      · exact ⟨by simp, p0, path0, hgp, hpath, hiff.1 hc⟩
                      · obtain ⟨hin, hrest⟩ := (ih filtered0 hrec pid).1 hmem'
                        exact ⟨by simp [hin], hrest⟩
                    · intro ⟨hin, hex⟩
                      rcases (List.mem_cons).1 hin with rfl | hin'
                      · simp
                      · exact List.mem_cons_of_mem _
                          ((ih filtered0 hrec pid).2 ⟨hin', hex⟩)
                  · rw [if_neg hc] at h
                    simp only [Option.some.injEq] at h
                    subst h
                    have hempty : path0 = [] := by
                      by_contra hne
                      exact hc (hiff.2 hne)
                    constructor
                    · intro hmem
                      obtain ⟨hin, hrest⟩ := (ih filtered0 hrec pid).1 hmem
                      exact ⟨by simp [hin], hrest⟩
                    · intro ⟨hin, hex⟩
                      rcases (List.mem_cons).1 hin with rfl | hin'
                      · obtain ⟨p, r, hgp', hpath', hrne⟩ := hex
                        rw [hgp] at hgp'
                        cases hgp'
                        rw [hpath] at hpath'
                        cases hpath'
                        exact absurd hempty hrne
                      · exact (ih filtered0 hrec pid).2 ⟨hin', hex⟩

/-- C7 witness: at the B next hop of `sidePackageWorld`, both listed
packages pass the filter — including K2, whose destination D is merely
reachable from B. -/
theorem c7_passing_filter_witness :
    "K2" ∈ (["K1", "K2"] : List String) ↔
      ("K2" ∈ (["K1", "K2"] : List String) ∧
        ∃ p r, get_package sidePackageWorld.packages "K2" = some p ∧
          get_least_time_path_to_move_from_point_a_to_point_b
            sidePackageWorld "B" p.destination = some r ∧ r ≠ []) :=
  c7_passing_filter sidePackageWorld "B" ["K1", "K2"] ["K1", "K2"]
    (by rfl) "K2"

end TrainFreight
